import Mathlib

/-!
# kube-dns-manager: the Ingress reconciler

A shallow embedding of `internal/controller/ingress_controller.go`.

* Go slices of strings are `List String` (a nil slice and an empty slice are both `[]`).
* Go maps from string to string are association lists read with `mapGet`; a nil map is `none`.
* Calls that leave the process (the Kubernetes API client, the Cloudflare functions of
  package `dnsapi`) are fields of an environment `Env W` acting on an abstract world `W`;
  every call is appended to a trace of `Event`s.
-/

set_option autoImplicit false

namespace KubeDnsManager

/-! ## Pure helpers -/

/-- The finalizer marker, constant `ingressFinalizer`. -/
def ingressFinalizer : String := "kube-dns-manager.io/dns-cleanup"

/-- Function `containsString`: linear scan with early return. -/
def containsString : List String → String → Bool
  | [], _ => false
  | v :: rest, str => if v = str then true else containsString rest str

/-- The membership map `m` built by the first loop of `difference` (`m[v] = true`);
a key never stored reads as `false`. -/
def differenceMap (slice2 : List String) : String → Bool :=
  slice2.foldl (fun m v => Function.update m v true) (fun _ => false)

/-- Function `difference`: the elements `v` of `slice1` with `!m[v]`, appended in order. -/
def difference (slice1 slice2 : List String) : List String :=
  let m := differenceMap slice2
  slice1.foldl (fun diff v => if !m v then diff ++ [v] else diff) []

/-- Function `removeString`: the elements different from `str`, appended in order. -/
def removeString (slice : List String) (str : String) : List String :=
  slice.foldl (fun result v => if v ≠ str then result ++ [v] else result) []

/-- The exclude loop of `Reconcile` (lines 163-170): `filteredDomains` collects the
domains `d` with `!containsString(excludeDomains, d)`. -/
def excludeFilter (currentDomains excludeDomains : List String) : List String :=
  currentDomains.foldl
    (fun filteredDomains domain =>
      if !containsString excludeDomains domain then filteredDomains ++ [domain]
      else filteredDomains) []

/-- Method `extractDomains`: the `Host` of every rule, appended in order. An `Ingress`
of the model keeps of each rule only its host. -/
def extractDomainsOfRules (rules : List String) : List String :=
  rules.foldl (fun domains host => domains ++ [host]) []

/-- One splitting pass of Go `strings.Split(s, sep)` for a one-character separator:
the pieces between the separators; a string without separator is its own single piece. -/
def splitChars (sep : Char) : List Char → List (List Char)
  | [] => [[]]
  | c :: cs =>
    if c = sep then [] :: splitChars sep cs
    else
      match splitChars sep cs with
      | [] => [[c]]
      | piece :: pieces => (c :: piece) :: pieces

/-- Go `strings.Split(s, ",")`. -/
def stringsSplit (s : String) (sep : Char) : List String :=
  (splitChars sep s.data).map String.mk

/-- Go `strings.Join(elems, sep)`. -/
def stringsJoin : List String → String → String
  | [], _ => ""
  | [a], _ => a
  | a :: b :: rest, sep => a ++ sep ++ stringsJoin (b :: rest) sep

/-! ## Data model -/

/-- A non-nil Go `map[string]string`. -/
abbrev GoMap := List (String × String)

/-- The comma-ok read `v, found := m[k]`. -/
def mapGet : GoMap → String → Option String
  | [], _ => none
  | (k', v) :: rest, k => if k' = k then some v else mapGet rest k

/-- The assignment `m[k] = v`. -/
def mapSet : GoMap → String → String → GoMap
  | [], k, v => [(k, v)]
  | (k', v') :: rest, k, v =>
    if k' = k then (k, v) :: rest else (k', v') :: mapSet rest k v

/-- The comma-ok read on a map that may be nil (`none`): a nil map has no key. -/
def nilMapGet (m : Option GoMap) (k : String) : Option String :=
  match m with
  | none => none
  | some m => mapGet m k

/-- The plain read `m[k]` on a map that may be nil: the zero value `""` when absent. -/
def nilMapIndex (m : Option GoMap) (k : String) : String :=
  (nilMapGet m k).getD ""

/-- The fields of `networkingv1.Ingress` that `Reconcile` reads or writes. -/
structure Ingress where
  /-- The value of `DeletionTimestamp.IsZero()`. -/
  deletionTimestampIsZero : Bool
  /-- The field `Finalizers`. -/
  finalizers : List String
  /-- The field `Annotations`; `none` is the nil map. -/
  annotations : Option GoMap
  /-- The `Host` of each entry of `Spec.Rules`. -/
  rules : List String
deriving DecidableEq, Repr

/-- Method `extractDomains`. -/
def extractDomains (ingress : Ingress) : List String :=
  extractDomainsOfRules ingress.rules

/-- Go `error` values: the API errors told apart by `errors.IsNotFound` and
`errors.IsConflict`, and the errors made by `fmt.Errorf`. -/
inductive Err where
  | notFound
  | conflict
  | other (code : Nat)
  | wrapped (msg : String) (cause : Err)
  | errorf (msg : String)
deriving DecidableEq, Repr

/-- Library predicate `errors.IsNotFound` (looks through `%w`). -/
def isNotFound : Err → Bool
  | .notFound => true
  | .wrapped _ cause => isNotFound cause
  | _ => false

/-- Library predicate `errors.IsConflict` (looks through `%w`). -/
def isConflict : Err → Bool
  | .conflict => true
  | .wrapped _ cause => isConflict cause
  | _ => false

/-- What a pass or a retried closure ends with: `nil`, an error, or a run-time panic
(assignment to an entry of a nil map). -/
inductive Outcome where
  | ok
  | error (e : Err)
  | panic
deriving DecidableEq, Repr

/-- The calls that leave the process, in the order they are issued. A lookup records what
it reported. -/
inductive Event where
  | getIngress
  | updateIngress (obj : Ingress)
  | getConfigMap (ns name : String)
  | getSecret (ns name : String)
  | getService (ns name : String)
  | getRecordId (zone token domain rtype : String) (found : Bool)
  | deleteRecord (zone token id : String)
  | updateRecord (zone token domain rtype content : String) (proxied : Bool)
  | addRecord (zone token domain rtype content : String) (proxied : Bool)
deriving DecidableEq, Repr

/-- A provider call that changes the zone: create, update or delete. -/
def Event.isMutation : Event → Bool
  | .deleteRecord _ _ _ => true
  | .updateRecord _ _ _ _ _ _ => true
  | .addRecord _ _ _ _ _ _ => true
  | _ => false

/-- A provider create or update call. -/
def Event.isWrite : Event → Bool
  | .updateRecord _ _ _ _ _ _ => true
  | .addRecord _ _ _ _ _ _ => true
  | _ => false

/-- Any call of package `dnsapi`. -/
def Event.isProvider : Event → Bool
  | .getRecordId _ _ _ _ _ => true
  | e => e.isMutation

/-- A write of the watched object. -/
def Event.isUpdateIngress : Event → Bool
  | .updateIngress _ => true
  | _ => false

/-- The reconciler's fields and everything outside the process. `W` is the state of the
outside world (cluster and DNS zone); every call may change it and answer from it. -/
structure Env (W : Type) where
  /-- Field `ConfigMapName`. -/
  configMapName : String
  /-- Field `ConfigMapNamespace`. -/
  configMapNamespace : String
  /-- The `Steps` of `retry.DefaultRetry`. -/
  retrySteps : Nat
  /-- The call `r.Get` for the watched object `req.NamespacedName`. -/
  getIngress : W → Except Err Ingress × W
  /-- The call `r.Update` for the watched object. -/
  updateIngress : W → Ingress → Option Err × W
  /-- The call `r.Get` for a ConfigMap; the answer is its `Data`. -/
  getConfigMap : W → String → String → Except Err GoMap × W
  /-- The call `r.Get` for a Secret; the answer is its `Data`, as strings. -/
  getSecret : W → String → String → Except Err GoMap × W
  /-- The call `r.Get` for a Service; the answer is `Status.LoadBalancer.Ingress`,
  each entry as (IP, Hostname). -/
  getService : W → String → String → Except Err (List (String × String)) × W
  /-- The call `yaml.Unmarshal` into a `[]string`. -/
  yamlUnmarshal : String → Except Err (List String)
  /-- Function `dnsapi.GetRecordId`. -/
  getRecordId : W → String → String → String → String → (Bool × String × Option Err) × W
  /-- Function `dnsapi.DeleteRecord`. -/
  deleteRecord : W → String → String → String → (Bool × Option Err) × W
  /-- Function `dnsapi.UpdateRecord`. -/
  updateRecord : W → String → String → String → String → String → Bool →
    (String × Option Err) × W
  /-- Function `dnsapi.AddRecord`. -/
  addRecord : W → String → String → String → String → String → Bool →
    (String × Option Err) × W

/-- The outside world together with the calls issued so far. -/
structure St (W : Type) where
  world : W
  trace : List Event

variable {W : Type}

/-! ## Calls, with their trace entry -/

def callGetIngress (env : Env W) (s : St W) : Except Err Ingress × St W :=
  let r := env.getIngress s.world
  (r.1, ⟨r.2, s.trace ++ [Event.getIngress]⟩)

def callUpdateIngress (env : Env W) (obj : Ingress) (s : St W) : Option Err × St W :=
  let r := env.updateIngress s.world obj
  (r.1, ⟨r.2, s.trace ++ [Event.updateIngress obj]⟩)

def callGetConfigMap (env : Env W) (ns name : String) (s : St W) : Except Err GoMap × St W :=
  let r := env.getConfigMap s.world ns name
  (r.1, ⟨r.2, s.trace ++ [Event.getConfigMap ns name]⟩)

def callGetSecret (env : Env W) (ns name : String) (s : St W) : Except Err GoMap × St W :=
  let r := env.getSecret s.world ns name
  (r.1, ⟨r.2, s.trace ++ [Event.getSecret ns name]⟩)

def callGetService (env : Env W) (ns name : String) (s : St W) :
    Except Err (List (String × String)) × St W :=
  let r := env.getService s.world ns name
  (r.1, ⟨r.2, s.trace ++ [Event.getService ns name]⟩)

def callGetRecordId (env : Env W) (zone token domain rtype : String) (s : St W) :
    (Bool × String) × St W :=
  let r := env.getRecordId s.world zone token domain rtype
  ((r.1.1, r.1.2.1), ⟨r.2, s.trace ++ [Event.getRecordId zone token domain rtype r.1.1]⟩)

def callDeleteRecord (env : Env W) (zone token id : String) (s : St W) : St W :=
  ⟨(env.deleteRecord s.world zone token id).2, s.trace ++ [Event.deleteRecord zone token id]⟩

def callUpdateRecord (env : Env W) (zone token domain rtype content : String)
    (proxied : Bool) (s : St W) : St W :=
  ⟨(env.updateRecord s.world zone token domain rtype content proxied).2,
    s.trace ++ [Event.updateRecord zone token domain rtype content proxied]⟩

def callAddRecord (env : Env W) (zone token domain rtype content : String)
    (proxied : Bool) (s : St W) : St W :=
  ⟨(env.addRecord s.world zone token domain rtype content proxied).2,
    s.trace ++ [Event.addRecord zone token domain rtype content proxied]⟩

/-! ## Configuration -/

/-- The loop `for key, value := range data` storing `config[key] = value` in a fresh map. -/
def copyMap (data : GoMap) : GoMap :=
  data.foldl (fun config kv => mapSet config kv.1 kv.2) []

/-- Method `loadDNSConfiguration`: the source as ConfigMap, else as Secret, else an error
(and then a nil map). -/
def loadDNSConfiguration (env : Env W) (sourceName : String) (s : St W) :
    Except Err GoMap × St W :=
  let namespace_ := env.configMapNamespace
  match callGetConfigMap env namespace_ sourceName s with
  | (.ok data, s1) => (.ok (copyMap data), s1)
  | (.error _, s1) =>
    match callGetSecret env namespace_ sourceName s1 with
    | (.ok data, s2) => (.ok (copyMap data), s2)
    | (.error _, s2) =>
      (.error (Err.errorf ("configuration source " ++ sourceName ++
        " not found as ConfigMap or Secret in namespace " ++ namespace_)), s2)

/-- The map a caller holds after `dnsconfig, _ := r.loadDNSConfiguration(...)`: nil when
the load failed. -/
def configOrNil (r : Except Err GoMap) : Option GoMap :=
  match r with
  | .ok config => some config
  | .error _ => none

/-- Method `loadTraefikConfig`: service name, namespace and exclude list, with the
defaults when the ConfigMap does not exist. -/
def loadTraefikConfig (env : Env W) (s : St W) :
    Except Err (String × String × List String) × St W :=
  match callGetConfigMap env env.configMapNamespace env.configMapName s with
  | (.error err, s1) =>
    if isNotFound err then (.ok ("traefik", "kube-system", []), s1)
    else (.error (Err.wrapped "failed to load ConfigMap" err), s1)
  | (.ok data, s1) =>
    let traefikServiceName :=
      if nilMapIndex (some data) "traefikServiceName" = "" then "traefik"
      else nilMapIndex (some data) "traefikServiceName"
    let traefikNamespace :=
      if nilMapIndex (some data) "traefikNamespace" = "" then "kube-system"
      else nilMapIndex (some data) "traefikNamespace"
    match mapGet data "excludedomains" with
    | some excludeDomainsRaw =>
      match env.yamlUnmarshal excludeDomainsRaw with
      | .error err => (.error (Err.wrapped "failed to parse excludedomains" err), s1)
      | .ok excludeDomains => (.ok (traefikServiceName, traefikNamespace, excludeDomains), s1)
    | none => (.ok (traefikServiceName, traefikNamespace, []), s1)

/-- Method `getLoadBalancerIP`: the IP, else the hostname, of the first load-balancer
entry of the service. -/
def getLoadBalancerIP (env : Env W) (namespace_ serviceName : String) (s : St W) :
    Except Err String × St W :=
  match callGetService env namespace_ serviceName s with
  | (.error err, s1) =>
    (.error (Err.wrapped ("failed to get service " ++ namespace_ ++ "/" ++ serviceName) err), s1)
  | (.ok lbIngress, s1) =>
    match lbIngress with
    | (ip, hostname) :: _ =>
      if ip ≠ "" then (.ok ip, s1)
      else if hostname ≠ "" then (.ok hostname, s1)
      else (.error (Err.errorf ("no LoadBalancer IP or hostname found for service " ++
        namespace_ ++ "/" ++ serviceName)), s1)
    | [] =>
      (.error (Err.errorf ("no LoadBalancer IP or hostname found for service " ++
        namespace_ ++ "/" ++ serviceName)), s1)

/-! ## Retry and finalizers -/

/-- Library function `retry.RetryOnConflict(backoff, fn)` with `steps` the `Steps` of the
backoff: `fn` is tried until it returns nil, or an error that is no conflict, or `steps`
attempts are used up, and then the last conflict is returned (nil when there was none).
The closure works on the caller's object through a pointer, hence the `Ingress`. -/
def retryOnConflict (fn : Ingress → St W → Outcome × Ingress × St W) :
    Nat → Option Err → Ingress → St W → Outcome × Ingress × St W
  | 0, lastErr, ingress, s =>
    match lastErr with
    | none => (.ok, ingress, s)
    | some err => (.error err, ingress, s)
  | steps + 1, _, ingress, s =>
    match fn ingress s with
    | (.ok, ingress1, s1) => (.ok, ingress1, s1)
    | (.panic, ingress1, s1) => (.panic, ingress1, s1)
    | (.error err, ingress1, s1) =>
      if isConflict err then retryOnConflict fn steps (some err) ingress1 s1
      else (.error err, ingress1, s1)

/-- The closure of `addFinalizer`: re-read the object; append the marker and write when
`containsString` does not find it. -/
def addFinalizerAttempt (env : Env W) (ingress : Ingress) (s : St W) :
    Outcome × Ingress × St W :=
  match callGetIngress env s with
  | (.error err, s1) => (.error err, ingress, s1)
  | (.ok obj, s1) =>
    if !containsString obj.finalizers ingressFinalizer then
      let obj1 := { obj with finalizers := obj.finalizers ++ [ingressFinalizer] }
      match callUpdateIngress env obj1 s1 with
      | (some err, s2) => (.error err, obj1, s2)
      | (none, s2) => (.ok, obj1, s2)
    else (.ok, obj, s1)

/-- Method `addFinalizer`. -/
def addFinalizer (env : Env W) (ingress : Ingress) (s : St W) : Outcome × Ingress × St W :=
  retryOnConflict (addFinalizerAttempt env) env.retrySteps none ingress s

/-- The closure of `removeFinalizer`: re-read the object; take the marker out with
`removeString` and write when `containsString` finds it. -/
def removeFinalizerAttempt (env : Env W) (ingress : Ingress) (s : St W) :
    Outcome × Ingress × St W :=
  match callGetIngress env s with
  | (.error err, s1) => (.error err, ingress, s1)
  | (.ok obj, s1) =>
    if containsString obj.finalizers ingressFinalizer then
      let obj1 := { obj with finalizers := removeString obj.finalizers ingressFinalizer }
      match callUpdateIngress env obj1 s1 with
      | (some err, s2) => (.error err, obj1, s2)
      | (none, s2) => (.ok, obj1, s2)
    else (.ok, obj, s1)

/-- Method `removeFinalizer`. -/
def removeFinalizer (env : Env W) (ingress : Ingress) (s : St W) :
    Outcome × Ingress × St W :=
  retryOnConflict (removeFinalizerAttempt env) env.retrySteps none ingress s

/-! ## The sweeps -/

/-- The key of the state annotation. -/
def previousDomainsKey : String := "dns.configuration/previous-domains"

/-- Body of the deletion-phase loop (lines 103-121) for one domain: look the A record up
and delete it when found, then the same with record type `txt`. The results of the two
deletes are only logged. -/
def cleanupDomain (env : Env W) (dnsconfig : Option GoMap) (domain : String) (s : St W) :
    St W :=
  let zone := nilMapIndex dnsconfig "zoneid"
  let token := nilMapIndex dnsconfig "token"
  let a := callGetRecordId env zone token domain "A" s
  let s1 := if a.1.1 then callDeleteRecord env zone token a.1.2 a.2 else a.2
  let t := callGetRecordId env zone token domain "txt" s1
  if t.1.1 then callDeleteRecord env zone token t.1.2 t.2 else t.2

/-- The deletion-phase loop (lines 93-122). `filteredDomains` is the empty slice of line 93;
nothing is ever appended to it. -/
def deletionSweep (env : Env W) (dnsconfig : Option GoMap) (domains : List String)
    (s : St W) : St W :=
  let filteredDomains : List String := []
  domains.foldl
    (fun s domain =>
      if containsString filteredDomains domain then s
      else cleanupDomain env dnsconfig domain s) s

/-- Body of the removal loop of the normal phase (lines 207-218) for one domain. -/
def removeDomain (env : Env W) (dnsconfig : Option GoMap) (domain : String) (s : St W) :
    St W :=
  let zone := nilMapIndex dnsconfig "zoneid"
  let token := nilMapIndex dnsconfig "token"
  let a := callGetRecordId env zone token domain "A" s
  let s1 := if a.1.1 then callDeleteRecord env zone token a.1.2 a.2 else a.2
  let t := callGetRecordId env zone token domain "TXT" s1
  if t.1.1 then callDeleteRecord env zone token t.1.2 t.2 else t.2

/-- The removal loop of the normal phase (lines 200-220). -/
def removalSweep (env : Env W) (dnsconfig : Option GoMap)
    (filteredDomains removedDomains : List String) (s : St W) : St W :=
  removedDomains.foldl
    (fun s domain =>
      if containsString filteredDomains domain then s
      else removeDomain env dnsconfig domain s) s

/-- Body of the add loop (lines 248-260) for one domain: update the A record when the
lookup (record type `a`) finds it and create it otherwise, then the same for the TXT
ownership record. -/
def syncDomain (env : Env W) (dnsconfig : Option GoMap) (loadBalancerIP domain : String)
    (s : St W) : St W :=
  let zone := nilMapIndex dnsconfig "zoneid"
  let token := nilMapIndex dnsconfig "token"
  let a := callGetRecordId env zone token domain "a" s
  let s1 :=
    if a.1.1 then callUpdateRecord env zone token domain "A" loadBalancerIP false a.2
    else callAddRecord env zone token domain "A" loadBalancerIP false a.2
  let t := callGetRecordId env zone token domain "TXT" s1
  if t.1.1 then callUpdateRecord env zone token domain "TXT" "kube-dns-manager" false t.2
  else callAddRecord env zone token domain "TXT" "kube-dns-manager" false t.2

/-- The add loop (lines 241-261). -/
def addSweep (env : Env W) (dnsconfig : Option GoMap) (loadBalancerIP : String)
    (filteredDomains currentDomains : List String) (s : St W) : St W :=
  currentDomains.foldl
    (fun s domain =>
      if !containsString filteredDomains domain then s
      else syncDomain env dnsconfig loadBalancerIP domain s) s

/-- The first `switch typeAnnotationValue` (lines 192-225). The error of
`loadDNSConfiguration` is dropped. -/
def removalSwitch (env : Env W) (typeAnnotationValue sourceAnnotationValue : String)
    (filteredDomains removedDomains : List String) (s : St W) : St W :=
  if typeAnnotationValue = "bind" then s
  else if typeAnnotationValue = "cloudflare" then
    let r := loadDNSConfiguration env sourceAnnotationValue s
    removalSweep env (configOrNil r.1) filteredDomains removedDomains r.2
  else s

/-- The second `switch typeAnnotationValue` (lines 227-264); `some err` is the early
return of line 238. -/
def addSwitch (env : Env W) (typeAnnotationValue sourceAnnotationValue loadBalancerIP : String)
    (filteredDomains currentDomains : List String) (s : St W) : Option Err × St W :=
  if typeAnnotationValue = "bind" then (none, s)
  else if typeAnnotationValue = "cloudflare" then
    match loadDNSConfiguration env sourceAnnotationValue s with
    | (.error err, s1) => (some err, s1)
    | (.ok dnsconfig, s1) =>
      (none, addSweep env (some dnsconfig) loadBalancerIP filteredDomains currentDomains s1)
  else (none, s)

/-- The closure of lines 268-276: re-read the object, store the joined
`difference(currentDomains, excludeDomains)` under the state key, write. -/
def writePreviousDomains (env : Env W) (currentDomains excludeDomains : List String)
    (ingress : Ingress) (s : St W) : Outcome × Ingress × St W :=
  match callGetIngress env s with
  | (.error err, s1) => (.error err, ingress, s1)
  | (.ok obj, s1) =>
    let DomainList := difference currentDomains excludeDomains
    match obj.annotations with
    | none => (.panic, obj, s1)
    | some annotations =>
      let obj1 := { obj with
        annotations := some (mapSet annotations previousDomainsKey (stringsJoin DomainList ",")) }
      match callUpdateIngress env obj1 s1 with
      | (some err, s2) => (.error err, obj1, s2)
      | (none, s2) => (.ok, obj1, s2)

/-- The end of the normal phase (lines 266-283): the assignment of line 267 to the object
in hand (its map is not nil there, the type annotation was found in it), then the retried
write; the outcome is that of the retry. -/
def persistPreviousDomains (env : Env W) (ingress : Ingress)
    (currentDomains excludeDomains : List String) (s : St W) : Outcome × St W :=
  let ingress1 := { ingress with
    annotations := ingress.annotations.map
      (fun m => mapSet m previousDomainsKey (stringsJoin currentDomains ",")) }
  let w := retryOnConflict (writePreviousDomains env currentDomains excludeDomains)
    env.retrySteps none ingress1 s
  (w.1, w.2.2)

/-! ## Reconcile -/

/-- The deletion phase with the marker present (lines 89-130). -/
def deletionPhase (env : Env W) (ingress : Ingress) (s : St W) : Outcome × St W :=
  let domains := extractDomains ingress
  let r := loadDNSConfiguration env (nilMapIndex ingress.annotations "dns.configuration/source") s
  let s1 := deletionSweep env (configOrNil r.1) domains r.2
  let f := removeFinalizer env ingress s1
  (f.1, f.2.2)

/-- The normal phase after the finalizer step (lines 134-284). The list `addDomains` of
line 190 is only logged and is left out. -/
def normalPhase (env : Env W) (ingress : Ingress) (traefikServiceName traefikNamespace : String)
    (excludeDomains : List String) (s : St W) : Outcome × St W :=
  match getLoadBalancerIP env traefikNamespace traefikServiceName s with
  | (.error err, s1) => (.error err, s1)
  | (.ok loadBalancerIP, s1) =>
    match nilMapGet ingress.annotations "dns.configuration/type" with
    | none => (.ok, s1)
    | some typeAnnotationValue =>
      match nilMapGet ingress.annotations "dns.configuration/source" with
      | none => (.ok, s1)
      | some sourceAnnotationValue =>
        let currentDomains := extractDomains ingress
        let filteredDomains := excludeFilter currentDomains excludeDomains
        if filteredDomains.length = 0 then (.ok, s1)
        else
          let previousDomains :=
            match nilMapGet ingress.annotations previousDomainsKey with
            | some val => stringsSplit val ','
            | none => []
          let removedDomains := difference previousDomains currentDomains
          let s2 := removalSwitch env typeAnnotationValue sourceAnnotationValue
            filteredDomains removedDomains s1
          match addSwitch env typeAnnotationValue sourceAnnotationValue loadBalancerIP
              filteredDomains currentDomains s2 with
          | (some err, s3) => (.error err, s3)
          | (none, s3) => persistPreviousDomains env ingress currentDomains excludeDomains s3

/-- Method `Reconcile` for the watched object of the request: the outcome and the calls
issued, appended to those of `s`. -/
def Reconcile (env : Env W) (s : St W) : Outcome × St W :=
  match callGetIngress env s with
  | (.error err, s1) => if isNotFound err then (.ok, s1) else (.error err, s1)
  | (.ok ingress, s1) =>
    match loadTraefikConfig env s1 with
    | (.error err, s2) => (.error err, s2)
    | (.ok (traefikServiceName, traefikNamespace, excludeDomains), s2) =>
      if ingress.deletionTimestampIsZero then
        let f := addFinalizer env ingress s2
        match f.1 with
        | .ok => normalPhase env f.2.1 traefikServiceName traefikNamespace excludeDomains f.2.2
        | outcome => (outcome, f.2.2)
      else if containsString ingress.finalizers ingressFinalizer then
        deletionPhase env ingress s2
      else (.ok, s2)

/-! ## Reading a trace -/

/-- The provider calls of a trace, in order. -/
def providerCalls (trace : List Event) : List Event :=
  trace.filter Event.isProvider

/-- The objects written with `r.Update`, in order. -/
def writtenObjects (trace : List Event) : List Ingress :=
  trace.filterMap (fun e => match e with
    | .updateIngress obj => some obj
    | _ => none)

/-- The domains looked up with record type `rtype`, in order. -/
def lookedUp (rtype : String) (trace : List Event) : List String :=
  trace.filterMap (fun e => match e with
    | .getRecordId _ _ domain t _ => if t = rtype then some domain else none
    | _ => none)

/-- The provider calls of one domain in a delete sweep: lookup of the A record (record
type written `typA`), its delete when found, then the same for the TXT record. `o` holds
what the two lookups answered. -/
def deleteSegment (zone token typA typT domain : String)
    (o : (Bool × String) × (Bool × String)) : List Event :=
  [Event.getRecordId zone token domain typA o.1.1]
    ++ (if o.1.1 then [Event.deleteRecord zone token o.1.2] else [])
    ++ [Event.getRecordId zone token domain typT o.2.1]
    ++ (if o.2.1 then [Event.deleteRecord zone token o.2.2] else [])

/-- The provider calls of one domain in the add sweep: lookup of the A record, update when
found and create otherwise, then the same for the TXT ownership record. -/
def syncSegment (zone token loadBalancerIP domain : String) (o : Bool × Bool) : List Event :=
  [Event.getRecordId zone token domain "a" o.1,
   if o.1 then Event.updateRecord zone token domain "A" loadBalancerIP false
   else Event.addRecord zone token domain "A" loadBalancerIP false,
   Event.getRecordId zone token domain "TXT" o.2,
   if o.2 then Event.updateRecord zone token domain "TXT" "kube-dns-manager" false
   else Event.addRecord zone token domain "TXT" "kube-dns-manager" false]

/-- The segments of a list of domains, one per domain, given what the lookups answered. -/
def segments {O : Type} (seg : String → O → List Event) (domains : List String)
    (outs : List O) : List Event :=
  ((domains.zip outs).map (fun p => seg p.1 p.2)).flatten

/-! ## A small closed world

A cluster holding one watched object, ConfigMaps and Secrets by name, one load balancer,
and a zone of (name, type) records. Nothing changes it but the calls of the reconciler. -/

/-- The state of the small world. -/
structure Cluster where
  object : Option Ingress
  configMaps : List (String × GoMap)
  secrets : List (String × GoMap)
  loadBalancer : List (String × String)
  records : List (String × String)
deriving DecidableEq, Repr

/-- First entry stored under a name. -/
def findNamed {α : Type} : List (String × α) → String → Option α
  | [], _ => none
  | (n, a) :: rest, name => if n = name then some a else findNamed rest name

/-- The zone compares record types without regard to case. -/
def zoneType (rtype : String) : String :=
  if rtype = "a" then "A" else if rtype = "txt" then "TXT" else rtype

/-- The identifier the zone gives a record. -/
def zoneId (domain rtype : String) : String :=
  zoneType rtype ++ ":" ++ domain

/-- A YAML block sequence of plain scalars, one `- item` per line. -/
def blockSequence (raw : String) : List String :=
  (splitChars '\n' raw.data).filterMap (fun line => match line with
    | '-' :: ' ' :: item => some (String.mk item)
    | _ => none)

/-- The small world as an environment: reads answer from the stored state, an update
replaces the object (and lets it go once it is being deleted and has no finalizer left),
the zone keeps the records created and not deleted. -/
def clusterEnv : Env Cluster where
  configMapName := "kube-dns-manager"
  configMapNamespace := "kube-system"
  retrySteps := 5
  getIngress := fun w =>
    match w.object with
    | some obj => (.ok obj, w)
    | none => (.error Err.notFound, w)
  updateIngress := fun w obj =>
    match w.object with
    | some _ =>
      if !obj.deletionTimestampIsZero && obj.finalizers.isEmpty then
        (none, { w with object := none })
      else (none, { w with object := some obj })
    | none => (some Err.notFound, w)
  getConfigMap := fun w _ name =>
    match findNamed w.configMaps name with
    | some data => (.ok data, w)
    | none => (.error Err.notFound, w)
  getSecret := fun w _ name =>
    match findNamed w.secrets name with
    | some data => (.ok data, w)
    | none => (.error Err.notFound, w)
  getService := fun w _ _ => (.ok w.loadBalancer, w)
  yamlUnmarshal := fun raw => .ok (blockSequence raw)
  getRecordId := fun w _ _ domain rtype =>
    if w.records.contains (domain, zoneType rtype) then
      ((true, zoneId domain rtype, none), w)
    else ((false, "Kein Record gefunden", none), w)
  deleteRecord := fun w _ _ id =>
    ((true, none), { w with records := w.records.filter (fun r => zoneId r.1 r.2 != id) })
  updateRecord := fun w _ _ _ _ _ _ => (("DNS-Record erfolgreich aktualisiert.\n", none), w)
  addRecord := fun w _ _ domain rtype _ _ =>
    (("DNS-Record erfolgreich angelegt. 200\n", none),
      { w with records := w.records ++ [(domain, zoneType rtype)] })

/-- An opted-in object of type `cloudflare` reading its configuration from `dns-config`. -/
def optedIn (hosts : List String) (previous : Option String) : Ingress where
  deletionTimestampIsZero := true
  finalizers := []
  annotations := some
    ([("dns.configuration/type", "cloudflare"), ("dns.configuration/source", "dns-config")]
      ++ (match previous with
        | some val => [(previousDomainsKey, val)]
        | none => []))
  rules := hosts

/-- A cluster with the object, the DNS configuration `dns-config` as a ConfigMap, the
exclude list (when given) in the reconciler's ConfigMap, and an empty zone. -/
def clusterWith (obj : Ingress) (exclude : Option String) : Cluster where
  object := some obj
  configMaps :=
    [("dns-config", [("zoneid", "z1"), ("token", "t1")])]
      ++ (match exclude with
        | some raw => [("kube-dns-manager", [("excludedomains", raw)])]
        | none => [])
  secrets := []
  loadBalancer := [("203.0.113.10", "")]
  records := []

/-- A fresh run of `Reconcile` in a world: outcome, world after, calls issued. -/
def runPass {W : Type} (env : Env W) (w : W) : Outcome × St W :=
  Reconcile env ⟨w, []⟩

/-- State `t` is reached from `s` by issuing further calls, all of them satisfying `P`. -/
def Extends {W : Type} (P : Event → Prop) (s t : St W) : Prop :=
  ∃ evs : List Event, t.trace = s.trace ++ evs ∧ ∀ e ∈ evs, P e

/-- A call to the Kubernetes API. -/
def Event.isCluster (e : Event) : Prop := e.isProvider = false

/-- A read from the Kubernetes API. -/
def Event.isRead (e : Event) : Prop := e.isProvider = false ∧ e.isUpdateIngress = false

/-- A provider delete call. -/
def Event.isDelete : Event → Bool
  | .deleteRecord _ _ _ => true
  | _ => false

/-- The previous list as `Reconcile` loads it (lines 181-186): the state annotation split
at the commas, the empty list when the annotation is absent. -/
def previousDomainsOf (ingress : Ingress) : List String :=
  match nilMapGet ingress.annotations previousDomainsKey with
  | some val => stringsSplit val ','
  | none => []

/-- The state in which the second switch is entered (line 227), the first switch having
run from `s0`, the state after the load-balancer lookup. With type `cloudflare` the DNS
configuration is loaded there for the add loop (line 234). -/
def addStepState {W : Type} (env : Env W) (ingress : Ingress) (excludeDomains : List String)
    (typeAnnotationValue sourceAnnotationValue : String) (s0 : St W) : St W :=
  removalSwitch env typeAnnotationValue sourceAnnotationValue
    (excludeFilter (extractDomains ingress) excludeDomains)
    (difference (previousDomainsOf ingress) (extractDomains ingress)) s0

/-- The pass started in `s` enters the normal phase: the object is read and is not being
deleted, the Traefik configuration loads, and the finalizer step succeeds, leaving the
object `ingress` in hand and the state `t`. -/
def NormalPass {W : Type} (env : Env W) (s : St W) (ingress : Ingress)
    (traefikServiceName traefikNamespace : String) (excludeDomains : List String)
    (t : St W) : Prop :=
  ∃ (ingress0 : Ingress) (s1 s2 : St W),
    callGetIngress env s = (.ok ingress0, s1)
    ∧ loadTraefikConfig env s1 = (.ok (traefikServiceName, traefikNamespace, excludeDomains), s2)
    ∧ ingress0.deletionTimestampIsZero = true
    ∧ addFinalizer env ingress0 s2 = (Outcome.ok, ingress, t)

/-- The pass started in `s` enters the deletion phase with the marker present: the object
`ingress` is read, is being deleted and carries the marker, and the Traefik configuration
loads, leaving the state `t`. -/
def DeletionPass {W : Type} (env : Env W) (s : St W) (ingress : Ingress) (t : St W) : Prop :=
  ∃ (s1 : St W) (cfg : String × String × List String),
    callGetIngress env s = (.ok ingress, s1)
    ∧ loadTraefikConfig env s1 = (.ok cfg, t)
    ∧ ingress.deletionTimestampIsZero = false
    ∧ containsString ingress.finalizers ingressFinalizer = true

/-! ## Package dnsapi: the Cloudflare functions over HTTP -/

/-- Struct `DNSRecord`, the body of a create or update request. -/
structure DNSRecord where
  type : String
  name : String
  content : String
  ttl : Int
  proxied : Bool
deriving DecidableEq, Repr

/-- Struct `Record`, one entry of `Response.Result`. -/
structure Record where
  id : String
  type : String
  content : String
  name : String
  proxied : Bool
deriving DecidableEq, Repr

/-- What `http.NewRequest` and the two `req.Header.Add` calls put together. -/
structure HttpRequest where
  method : String
  url : String
  headers : List (String × String)
  body : Option String
deriving DecidableEq, Repr

/-- What the functions read of an `http.Response`: the status code, and what
`ioutil.ReadAll(resp.Body)` returns. -/
structure HttpResponse where
  statusCode : Int
  body : Except Err String

/-- The library calls of package `dnsapi`; `W` is the state of the network and of the
Cloudflare zone behind it. -/
structure HttpEnv (W : Type) where
  /-- The call `json.Marshal(dnsRecord)`. -/
  jsonMarshal : DNSRecord → Except Err String
  /-- The error of `http.NewRequest(method, url, body)`, `none` for nil. -/
  newRequest : String → String → Option Err
  /-- The call `client.Do(req)`: a transport error, or a response. -/
  doRequest : W → HttpRequest → Except Err HttpResponse × W
  /-- The call `json.Unmarshal(body, &response)`; the answer is `response.Result`. -/
  jsonUnmarshal : String → Except Err (List Record)

/-- The two headers every request carries. -/
def requestHeaders (token : String) : List (String × String) :=
  [("Authorization", "Bearer " ++ token), ("Content-Type", "application/json")]

/-- Function `AddRecord`. A response whose status is not 200 is printed and the function
returns the empty message with a nil error (line 56). -/
def AddRecord (http : HttpEnv W) (w : W) (zoneID token domain rtype ip : String)
    (proxied : Bool) : (String × Option Err) × W :=
  let url := "https://api.cloudflare.com/client/v4/zones/" ++ zoneID ++ "/dns_records"
  let dnsRecord : DNSRecord :=
    { type := rtype, name := domain, content := ip, ttl := 1, proxied := proxied }
  match http.jsonMarshal dnsRecord with
  | .error err => (("", some err), w)
  | .ok jsonData =>
    match http.newRequest "POST" url with
    | some err => (("", some err), w)
    | none =>
      match http.doRequest w
          { method := "POST", url := url, headers := requestHeaders token,
            body := some jsonData } with
      | (.error err, w1) => (("", some err), w1)
      | (.ok resp, w1) =>
        if resp.statusCode = 200 then (("DNS-Record erfolgreich angelegt. 200\n", none), w1)
        else (("", none), w1)

/-- Function `GetRecordId`: the id of the first record of the answer. -/
def GetRecordId (http : HttpEnv W) (w : W) (zoneID token domain rtype : String) :
    (Bool × String × Option Err) × W :=
  let url := "https://api.cloudflare.com/client/v4/zones/" ++ zoneID ++ "/dns_records?type="
    ++ rtype ++ "&name=" ++ domain
  match http.newRequest "GET" url with
  | some err => ((false, "", some err), w)
  | none =>
    match http.doRequest w
        { method := "GET", url := url, headers := requestHeaders token, body := none } with
    | (.error err, w1) => ((false, "Fehler beim Senden des Requests:", some err), w1)
    | (.ok resp, w1) =>
      match resp.body with
      | .error err => ((false, "Fehler beim Lesen der Antwort:", some err), w1)
      | .ok body =>
        match http.jsonUnmarshal body with
        | .error err => ((false, "Fehler beim Unmarshalling der JSON-Antwort", some err), w1)
        | .ok result =>
          match result with
          | record :: _ => ((true, record.id, none), w1)
          | [] => ((false, "Kein Record gefunden", none), w1)

/-- Function `UpdateRecord`: looks the record up and, when it exists, sends the PUT. A
response whose status is not 200 is printed and the function returns the empty message
with a nil error (line 108). -/
def UpdateRecord (http : HttpEnv W) (w : W) (zoneID token domain rtype ip : String)
    (proxied : Bool) : (String × Option Err) × W :=
  let g := GetRecordId http w zoneID token domain rtype
  let recordID := g.1.2.1
  if g.1.1 then
    let url := "https://api.cloudflare.com/client/v4/zones/" ++ zoneID ++ "/dns_records/"
      ++ recordID
    let dnsRecord : DNSRecord :=
      { type := rtype, name := domain, content := ip, ttl := 1, proxied := proxied }
    match http.jsonMarshal dnsRecord with
    | .error err => (("", some err), g.2)
    | .ok jsonData =>
      match http.newRequest "PUT" url with
      | some err => (("", some err), g.2)
      | none =>
        match http.doRequest g.2
            { method := "PUT", url := url, headers := requestHeaders token,
              body := some jsonData } with
        | (.error err, w1) => (("", some err), w1)
        | (.ok resp, w1) =>
          if resp.statusCode = 200 then (("DNS-Record erfolgreich aktualisiert.\n", none), w1)
          else (("", none), w1)
  else (("", none), g.2)

/-- Function `DeleteRecord`. For a response whose status is not 200 line 228 returns
`false, err`, where `err` is the error of `client.Do`, nil on that path. -/
def DeleteRecord (http : HttpEnv W) (w : W) (zoneID token recordID : String) :
    (Bool × Option Err) × W :=
  let url := "https://api.cloudflare.com/client/v4/zones/" ++ zoneID ++ "/dns_records/"
    ++ recordID
  match http.newRequest "DELETE" url with
  | some err => ((false, some err), w)
  | none =>
    match http.doRequest w
        { method := "DELETE", url := url, headers := requestHeaders token, body := none } with
    | (.error err, w1) => ((false, some err), w1)
    | (.ok resp, w1) =>
      if resp.statusCode = 200 then ((true, none), w1)
      else ((false, (none : Option Err)), w1)

/-- The environment of `Reconcile` whose four provider calls are the Cloudflare functions
over `http`. -/
def withCloudflare (env : Env W) (http : HttpEnv W) : Env W :=
  { env with
    getRecordId := GetRecordId http
    deleteRecord := DeleteRecord http
    updateRecord := UpdateRecord http
    addRecord := AddRecord http }

/-- A Cloudflare endpoint that answers every lookup with status 200 and one record
`rec1`, and every other request with the status `code`; the world is the list of the
requests received. -/
def statusHttp (code : Int) : HttpEnv (List HttpRequest) where
  jsonMarshal := fun r => .ok (r.type ++ " " ++ r.name ++ " " ++ r.content)
  newRequest := fun _ _ => none
  doRequest := fun w req =>
    if req.method = "GET" then (.ok { statusCode := 200, body := .ok "result" }, w ++ [req])
    else (.ok { statusCode := code, body := .ok "" }, w ++ [req])
  jsonUnmarshal := fun _ =>
    .ok [{ id := "rec1", type := "A", content := "203.0.113.10", name := "a.example.com",
           proxied := false }]

/-- A network on which no request gets through: `client.Do` fails. -/
def brokenHttp : HttpEnv (List HttpRequest) where
  jsonMarshal := fun r => .ok (r.type ++ " " ++ r.name ++ " " ++ r.content)
  newRequest := fun _ _ => none
  doRequest := fun w req => (.error (Err.other 1), w ++ [req])
  jsonUnmarshal := fun _ => .ok []

/-- The provider mutations of one domain in the add sweep: update of the A record when
its lookup found it and create otherwise, then the same for the TXT ownership record. -/
def syncWrites (zone token loadBalancerIP domain : String) (o : Bool × Bool) : List Event :=
  [if o.1 then Event.updateRecord zone token domain "A" loadBalancerIP false
   else Event.addRecord zone token domain "A" loadBalancerIP false,
   if o.2 then Event.updateRecord zone token domain "TXT" "kube-dns-manager" false
   else Event.addRecord zone token domain "TXT" "kube-dns-manager" false]

/-- The pass started in `s` reaches the finalizer step of the normal phase: the object
`ingress0` is read and is not being deleted and the Traefik configuration loads, leaving
the state `s2`. Nothing is said of how the finalizer step and the later steps end. -/
def NormalStart {W : Type} (env : Env W) (s : St W) (ingress0 : Ingress)
    (traefikServiceName traefikNamespace : String) (excludeDomains : List String)
    (s2 : St W) : Prop :=
  ∃ s1 : St W,
    callGetIngress env s = (.ok ingress0, s1)
    ∧ loadTraefikConfig env s1 = (.ok (traefikServiceName, traefikNamespace, excludeDomains), s2)
    ∧ ingress0.deletionTimestampIsZero = true

/-! ## Helper lemmas on the pure functions -/

theorem containsString_eq_decide (l : List String) (x : String) :
    containsString l x = decide (x ∈ l) := by
  induction l with
  | nil => simp [containsString]
  | cons v rest ih =>
    by_cases h : v = x
    · simp [containsString, h]
    · have h' : ¬ x = v := fun e => h e.symm
      simp [containsString, h, h', ih]

theorem differenceMap_foldl (l : List String) (m : String → Bool) (x : String) :
    l.foldl (fun m v => Function.update m v true) m x = (m x || decide (x ∈ l)) := by
  induction l generalizing m with
  | nil => simp
  | cons v rest ih =>
    rw [List.foldl_cons, ih]
    by_cases h : x = v
    · subst h; simp
    · simp [Function.update, h]

theorem differenceMap_eq (l : List String) (x : String) :
    differenceMap l x = decide (x ∈ l) := by
  simp [differenceMap, differenceMap_foldl]

theorem foldl_append_filter {α : Type} (p : α → Bool) (l acc : List α) :
    l.foldl (fun r v => if p v then r ++ [v] else r) acc = acc ++ l.filter p := by
  induction l generalizing acc with
  | nil => simp
  | cons v rest ih =>
    rw [List.foldl_cons, ih]
    by_cases h : p v <;> simp [h, List.filter_cons]

theorem difference_eq_filter (a b : List String) :
    difference a b = a.filter (fun x => decide (x ∉ b)) := by
  unfold difference
  have h := foldl_append_filter (fun x => !differenceMap b x) a []
  simp only [List.nil_append] at h
  rw [h]
  apply List.filter_congr
  intro x _
  simp [differenceMap_eq]

theorem excludeFilter_eq_filter (a b : List String) :
    excludeFilter a b = a.filter (fun x => decide (x ∉ b)) := by
  unfold excludeFilter
  have h := foldl_append_filter (fun x => !containsString b x) a []
  simp only [List.nil_append] at h
  rw [h]
  apply List.filter_congr
  intro x _
  simp [containsString_eq_decide]

theorem removeString_eq_filter (l : List String) (s : String) :
    removeString l s = l.filter (fun x => decide (x ≠ s)) := by
  unfold removeString
  have h := foldl_append_filter (fun x => decide (x ≠ s)) l []
  simp only [List.nil_append] at h
  rw [← h]
  congr 1
  funext r v
  by_cases hv : v = s <;> simp [hv]

/-! ## Helper lemmas on traces -/

theorem Extends.refl {W : Type} (P : Event → Prop) (s : St W) : Extends P s s :=
  ⟨[], by simp, by simp⟩

theorem Extends.trans {W : Type} {P : Event → Prop} {s t u : St W}
    (h1 : Extends P s t) (h2 : Extends P t u) : Extends P s u := by
  obtain ⟨e1, h1, p1⟩ := h1
  obtain ⟨e2, h2, p2⟩ := h2
  refine ⟨e1 ++ e2, by rw [h2, h1, List.append_assoc], ?_⟩
  intro e he
  rcases List.mem_append.mp he with h | h
  · exact p1 e h
  · exact p2 e h

theorem Extends.mono {W : Type} {P Q : Event → Prop} {s t : St W}
    (h : Extends P s t) (hPQ : ∀ e, P e → Q e) : Extends Q s t := by
  obtain ⟨evs, h1, p1⟩ := h
  exact ⟨evs, h1, fun e he => hPQ e (p1 e he)⟩

theorem Extends.one {W : Type} {P : Event → Prop} {s t : St W} (e : Event)
    (h : t.trace = s.trace ++ [e]) (hp : P e) : Extends P s t :=
  ⟨[e], h, by simpa using hp⟩

theorem Extends.providerCalls_eq {W : Type} {s t : St W}
    (h : Extends Event.isCluster s t) : providerCalls t.trace = providerCalls s.trace := by
  obtain ⟨evs, h1, p1⟩ := h
  have : evs.filter Event.isProvider = [] := by
    rw [List.filter_eq_nil_iff]
    intro e he
    have := p1 e he
    simp [Event.isCluster] at this
    simp [this]
  simp [providerCalls, h1, this]

theorem Extends.writtenObjects_eq {W : Type} {s t : St W}
    (h : Extends (fun e => e.isUpdateIngress = false) s t) :
    writtenObjects t.trace = writtenObjects s.trace := by
  obtain ⟨evs, h1, p1⟩ := h
  have : writtenObjects evs = [] := by
    unfold writtenObjects
    rw [List.filterMap_eq_nil_iff]
    intro e he
    have := p1 e he
    cases e <;> simp_all [Event.isUpdateIngress]
  simp only [writtenObjects] at this
  simp [writtenObjects, h1, this]

theorem foldl_guard {W : Type} (c : String → Bool) (step : String → St W → St W)
    (l : List String) (s : St W) :
    l.foldl (fun s d => if c d then s else step d s) s
      = (l.filter (fun d => !c d)).foldl (fun s d => step d s) s := by
  induction l generalizing s with
  | nil => rfl
  | cons d rest ih =>
    by_cases h : c d
    · simp [List.foldl_cons, List.filter_cons, h, ih]
    · simp [List.foldl_cons, List.filter_cons, h, ih]

theorem foldl_segments {W O : Type} (step : String → St W → St W)
    (seg : String → O → List Event)
    (hstep : ∀ d s, ∃ o, (step d s).trace = s.trace ++ seg d o)
    (l : List String) (s : St W) :
    ∃ outs : List O, outs.length = l.length ∧
      (l.foldl (fun s d => step d s) s).trace = s.trace ++ segments seg l outs := by
  induction l generalizing s with
  | nil => exact ⟨[], rfl, by simp [segments]⟩
  | cons d rest ih =>
    obtain ⟨o, ho⟩ := hstep d s
    obtain ⟨outs, hlen, hout⟩ := ih (step d s)
    refine ⟨o :: outs, by simp [hlen], ?_⟩
    rw [List.foldl_cons, hout, ho]
    simp [segments, List.append_assoc]

theorem lookup_delete_trace {W : Type} (env : Env W) (zone token domain rtype : String)
    (s : St W) :
    ∃ o : Bool × String,
      (if (callGetRecordId env zone token domain rtype s).1.1 then
          callDeleteRecord env zone token (callGetRecordId env zone token domain rtype s).1.2
            (callGetRecordId env zone token domain rtype s).2
        else (callGetRecordId env zone token domain rtype s).2).trace
      = s.trace ++ ([Event.getRecordId zone token domain rtype o.1]
          ++ (if o.1 then [Event.deleteRecord zone token o.2] else [])) := by
  refine ⟨(callGetRecordId env zone token domain rtype s).1, ?_⟩
  by_cases h : (callGetRecordId env zone token domain rtype s).1.1 = true
  · rw [if_pos h, if_pos h]
    simp only [callDeleteRecord, callGetRecordId, List.append_assoc] at h ⊢
  · rw [if_neg h, if_neg h]
    simp only [callGetRecordId, List.append_nil] at h ⊢

theorem cleanupDomain_trace {W : Type} (env : Env W) (dnsconfig : Option GoMap)
    (domain : String) (s : St W) :
    ∃ o, (cleanupDomain env dnsconfig domain s).trace = s.trace ++
      deleteSegment (nilMapIndex dnsconfig "zoneid") (nilMapIndex dnsconfig "token")
        "A" "txt" domain o := by
  obtain ⟨o1, h1⟩ := lookup_delete_trace env (nilMapIndex dnsconfig "zoneid")
    (nilMapIndex dnsconfig "token") domain "A" s
  obtain ⟨o2, h2⟩ := lookup_delete_trace env (nilMapIndex dnsconfig "zoneid")
    (nilMapIndex dnsconfig "token") domain "txt" _
  refine ⟨(o1, o2), ?_⟩
  refine Eq.trans h2 ?_
  rw [h1]
  simp [deleteSegment, List.append_assoc]

theorem removeDomain_trace {W : Type} (env : Env W) (dnsconfig : Option GoMap)
    (domain : String) (s : St W) :
    ∃ o, (removeDomain env dnsconfig domain s).trace = s.trace ++
      deleteSegment (nilMapIndex dnsconfig "zoneid") (nilMapIndex dnsconfig "token")
        "A" "TXT" domain o := by
  obtain ⟨o1, h1⟩ := lookup_delete_trace env (nilMapIndex dnsconfig "zoneid")
    (nilMapIndex dnsconfig "token") domain "A" s
  obtain ⟨o2, h2⟩ := lookup_delete_trace env (nilMapIndex dnsconfig "zoneid")
    (nilMapIndex dnsconfig "token") domain "TXT" _
  refine ⟨(o1, o2), ?_⟩
  refine Eq.trans h2 ?_
  rw [h1]
  simp [deleteSegment, List.append_assoc]

theorem lookup_write_trace {W : Type} (env : Env W) (zone token domain lookupType rtype
    content : String) (s : St W) :
    ∃ o : Bool,
      (if (callGetRecordId env zone token domain lookupType s).1.1 then
          callUpdateRecord env zone token domain rtype content false
            (callGetRecordId env zone token domain lookupType s).2
        else callAddRecord env zone token domain rtype content false
            (callGetRecordId env zone token domain lookupType s).2).trace
      = s.trace ++ [Event.getRecordId zone token domain lookupType o,
          if o then Event.updateRecord zone token domain rtype content false
          else Event.addRecord zone token domain rtype content false] := by
  refine ⟨(callGetRecordId env zone token domain lookupType s).1.1, ?_⟩
  by_cases h : (callGetRecordId env zone token domain lookupType s).1.1 = true
  · rw [if_pos h, if_pos h]
    simp only [callUpdateRecord, callGetRecordId, List.append_assoc] at h ⊢
    rw [h]
    rfl
  · rw [if_neg h, if_neg h]
    simp only [callAddRecord, callGetRecordId, List.append_assoc] at h ⊢
    simp only [Bool.not_eq_true] at h
    rw [h]
    rfl

theorem syncDomain_trace {W : Type} (env : Env W) (dnsconfig : Option GoMap)
    (loadBalancerIP domain : String) (s : St W) :
    ∃ o, (syncDomain env dnsconfig loadBalancerIP domain s).trace = s.trace ++
      syncSegment (nilMapIndex dnsconfig "zoneid") (nilMapIndex dnsconfig "token")
        loadBalancerIP domain o := by
  obtain ⟨o1, h1⟩ := lookup_write_trace env (nilMapIndex dnsconfig "zoneid")
    (nilMapIndex dnsconfig "token") domain "a" "A" loadBalancerIP s
  obtain ⟨o2, h2⟩ := lookup_write_trace env (nilMapIndex dnsconfig "zoneid")
    (nilMapIndex dnsconfig "token") domain "TXT" "TXT" "kube-dns-manager" _
  refine ⟨(o1, o2), ?_⟩
  refine Eq.trans h2 ?_
  rw [h1]
  simp [syncSegment, List.append_assoc]

theorem deletionSweep_trace {W : Type} (env : Env W) (dnsconfig : Option GoMap)
    (domains : List String) (s : St W) :
    ∃ outs : List ((Bool × String) × (Bool × String)), outs.length = domains.length ∧
      (deletionSweep env dnsconfig domains s).trace = s.trace ++
        segments (deleteSegment (nilMapIndex dnsconfig "zoneid")
          (nilMapIndex dnsconfig "token") "A" "txt") domains outs := by
  have h : deletionSweep env dnsconfig domains s
      = domains.foldl (fun s d => cleanupDomain env dnsconfig d s) s := by
    simp [deletionSweep, containsString]
  rw [h]
  exact foldl_segments _ _ (cleanupDomain_trace env dnsconfig) domains s

theorem removalSweep_trace {W : Type} (env : Env W) (dnsconfig : Option GoMap)
    (filteredDomains removedDomains : List String) (s : St W) :
    ∃ outs : List ((Bool × String) × (Bool × String)),
      outs.length = (removedDomains.filter (fun d => !containsString filteredDomains d)).length ∧
      (removalSweep env dnsconfig filteredDomains removedDomains s).trace = s.trace ++
        segments (deleteSegment (nilMapIndex dnsconfig "zoneid")
          (nilMapIndex dnsconfig "token") "A" "TXT")
          (removedDomains.filter (fun d => !containsString filteredDomains d)) outs := by
  unfold removalSweep
  rw [foldl_guard]
  exact foldl_segments _ _ (removeDomain_trace env dnsconfig) _ s

theorem addSweep_trace {W : Type} (env : Env W) (dnsconfig : Option GoMap)
    (loadBalancerIP : String) (filteredDomains currentDomains : List String) (s : St W) :
    ∃ outs : List (Bool × Bool),
      outs.length = (currentDomains.filter (fun d => containsString filteredDomains d)).length ∧
      (addSweep env dnsconfig loadBalancerIP filteredDomains currentDomains s).trace = s.trace ++
        segments (syncSegment (nilMapIndex dnsconfig "zoneid")
          (nilMapIndex dnsconfig "token") loadBalancerIP)
          (currentDomains.filter (fun d => containsString filteredDomains d)) outs := by
  unfold addSweep
  rw [foldl_guard]
  simp only [Bool.not_not]
  exact foldl_segments _ _ (syncDomain_trace env dnsconfig loadBalancerIP) _ s

/-! ## Helper lemmas on the cluster calls -/

theorem callGetIngress_extends {W : Type} (env : Env W) (s : St W) :
    Extends Event.isRead s (callGetIngress env s).2 :=
  Extends.one Event.getIngress rfl ⟨rfl, rfl⟩

theorem callUpdateIngress_extends {W : Type} (env : Env W) (obj : Ingress) (s : St W) :
    Extends Event.isCluster s (callUpdateIngress env obj s).2 :=
  Extends.one (Event.updateIngress obj) rfl rfl

theorem callGetConfigMap_extends {W : Type} (env : Env W) (ns name : String) (s : St W) :
    Extends Event.isRead s (callGetConfigMap env ns name s).2 :=
  Extends.one (Event.getConfigMap ns name) rfl ⟨rfl, rfl⟩

theorem callGetSecret_extends {W : Type} (env : Env W) (ns name : String) (s : St W) :
    Extends Event.isRead s (callGetSecret env ns name s).2 :=
  Extends.one (Event.getSecret ns name) rfl ⟨rfl, rfl⟩

theorem callGetService_extends {W : Type} (env : Env W) (ns name : String) (s : St W) :
    Extends Event.isRead s (callGetService env ns name s).2 :=
  Extends.one (Event.getService ns name) rfl ⟨rfl, rfl⟩

theorem isRead_isCluster (e : Event) (h : e.isRead) : e.isCluster := h.1

theorem loadDNSConfiguration_extends {W : Type} (env : Env W) (sourceName : String)
    (s : St W) : Extends Event.isRead s (loadDNSConfiguration env sourceName s).2 := by
  have h1 := callGetConfigMap_extends env env.configMapNamespace sourceName s
  have h2 := callGetSecret_extends env env.configMapNamespace sourceName
    (callGetConfigMap env env.configMapNamespace sourceName s).2
  unfold loadDNSConfiguration
  simp only []
  split
  · rename_i data s1 heq
    rw [heq] at h1
    exact h1
  · rename_i err s1 heq
    rw [heq] at h1 h2
    split
    · rename_i data s2 heq2
      rw [heq2] at h2
      exact h1.trans h2
    · rename_i err2 s2 heq2
      rw [heq2] at h2
      exact h1.trans h2

theorem loadTraefikConfig_extends {W : Type} (env : Env W) (s : St W) :
    Extends Event.isRead s (loadTraefikConfig env s).2 := by
  have h1 := callGetConfigMap_extends env env.configMapNamespace env.configMapName s
  unfold loadTraefikConfig
  split
  · rename_i err s1 heq
    rw [heq] at h1
    split <;> exact h1
  · rename_i data s1 heq
    rw [heq] at h1
    simp only []
    split
    · split <;> exact h1
    · exact h1

theorem getLoadBalancerIP_extends {W : Type} (env : Env W) (ns name : String) (s : St W) :
    Extends Event.isRead s (getLoadBalancerIP env ns name s).2 := by
  have h1 := callGetService_extends env ns name s
  unfold getLoadBalancerIP
  split
  · rename_i err s1 heq
    rw [heq] at h1
    exact h1
  · rename_i lb s1 heq
    rw [heq] at h1
    split
    · split
      · exact h1
      · split <;> exact h1
    · exact h1

theorem retryOnConflict_extends {W : Type} {P : Event → Prop}
    (fn : Ingress → St W → Outcome × Ingress × St W)
    (hfn : ∀ ingress s, Extends P s (fn ingress s).2.2)
    (steps : Nat) (lastErr : Option Err) (ingress : Ingress) (s : St W) :
    Extends P s (retryOnConflict fn steps lastErr ingress s).2.2 := by
  induction steps generalizing lastErr ingress s with
  | zero =>
    unfold retryOnConflict
    split <;> exact Extends.refl P s
  | succ n ih =>
    have h := hfn ingress s
    unfold retryOnConflict
    split
    · rename_i i1 s1 heq
      rw [heq] at h
      exact h
    · rename_i i1 s1 heq
      rw [heq] at h
      exact h
    · rename_i err i1 s1 heq
      rw [heq] at h
      split
      · exact h.trans (ih (some err) i1 s1)
      · exact h

theorem retryOnConflict_ok {W : Type} {Q : Ingress → St W → Prop}
    (fn : Ingress → St W → Outcome × Ingress × St W)
    (hfn : ∀ ingress s, (fn ingress s).1 = Outcome.ok → Q (fn ingress s).2.1 (fn ingress s).2.2)
    (steps : Nat) (lastErr : Option Err) (ingress : Ingress) (s : St W)
    (hsteps : lastErr ≠ none ∨ 0 < steps)
    (hok : (retryOnConflict fn steps lastErr ingress s).1 = Outcome.ok) :
    Q (retryOnConflict fn steps lastErr ingress s).2.1
      (retryOnConflict fn steps lastErr ingress s).2.2 := by
  induction steps generalizing lastErr ingress s with
  | zero =>
    rcases hsteps with h | h
    · cases lastErr with
      | none => exact absurd rfl h
      | some err => simp [retryOnConflict] at hok
    · exact absurd h (Nat.lt_irrefl 0)
  | succ n ih =>
    have h := hfn ingress s
    unfold retryOnConflict at hok ⊢
    split at hok
    · rename_i i1 s1 heq
      simp only [heq] at h ⊢
      exact h trivial
    · simp at hok
    · rename_i err i1 s1 heq
      rw [heq] at h
      split at hok
      · rename_i hc
        simp only [hc, if_true]
        exact ih (some err) i1 s1 (Or.inl (by simp)) hok
      · simp at hok

theorem addFinalizerAttempt_extends {W : Type} (env : Env W) (ingress : Ingress) (s : St W) :
    Extends Event.isCluster s (addFinalizerAttempt env ingress s).2.2 := by
  have h1 := (callGetIngress_extends env s).mono isRead_isCluster
  unfold addFinalizerAttempt
  split
  · rename_i err s1 heq
    rw [heq] at h1
    exact h1
  · rename_i obj s1 heq
    rw [heq] at h1
    split
    · have h2 := callUpdateIngress_extends env
        { obj with finalizers := obj.finalizers ++ [ingressFinalizer] } s1
      simp only []
      split
      · rename_i err s2 heq2
        rw [heq2] at h2
        exact h1.trans h2
      · rename_i s2 heq2
        rw [heq2] at h2
        exact h1.trans h2
    · exact h1

theorem removeFinalizerAttempt_extends {W : Type} (env : Env W) (ingress : Ingress)
    (s : St W) : Extends Event.isCluster s (removeFinalizerAttempt env ingress s).2.2 := by
  have h1 := (callGetIngress_extends env s).mono isRead_isCluster
  unfold removeFinalizerAttempt
  split
  · rename_i err s1 heq
    rw [heq] at h1
    exact h1
  · rename_i obj s1 heq
    rw [heq] at h1
    split
    · have h2 := callUpdateIngress_extends env
        { obj with finalizers := removeString obj.finalizers ingressFinalizer } s1
      simp only []
      split
      · rename_i err s2 heq2
        rw [heq2] at h2
        exact h1.trans h2
      · rename_i s2 heq2
        rw [heq2] at h2
        exact h1.trans h2
    · exact h1

theorem writePreviousDomains_extends {W : Type} (env : Env W)
    (currentDomains excludeDomains : List String) (ingress : Ingress) (s : St W) :
    Extends Event.isCluster s
      (writePreviousDomains env currentDomains excludeDomains ingress s).2.2 := by
  have h1 := (callGetIngress_extends env s).mono isRead_isCluster
  unfold writePreviousDomains
  split
  · rename_i err s1 heq
    rw [heq] at h1
    exact h1
  · rename_i obj s1 heq
    rw [heq] at h1
    simp only []
    split
    · exact h1
    · rename_i annotations hann
      have h2 := callUpdateIngress_extends env
        { obj with annotations := some (mapSet annotations previousDomainsKey
            (stringsJoin (difference currentDomains excludeDomains) ",")) } s1
      split
      · rename_i err s2 heq2
        rw [heq2] at h2
        exact h1.trans h2
      · rename_i s2 heq2
        rw [heq2] at h2
        exact h1.trans h2

theorem addFinalizer_extends {W : Type} (env : Env W) (ingress : Ingress) (s : St W) :
    Extends Event.isCluster s (addFinalizer env ingress s).2.2 :=
  retryOnConflict_extends _ (addFinalizerAttempt_extends env) _ _ _ _

theorem removeFinalizer_extends {W : Type} (env : Env W) (ingress : Ingress) (s : St W) :
    Extends Event.isCluster s (removeFinalizer env ingress s).2.2 :=
  retryOnConflict_extends _ (removeFinalizerAttempt_extends env) _ _ _ _

/-! ## Helper lemmas on the phases -/

theorem Reconcile_normal {W : Type} {env : Env W} {s t : St W} {ingress : Ingress}
    {svc ns : String} {excl : List String} (h : NormalPass env s ingress svc ns excl t) :
    Reconcile env s = normalPhase env ingress svc ns excl t := by
  obtain ⟨ingress0, s1, s2, hget, hcfg, hzero, hfin⟩ := h
  unfold Reconcile
  rw [hget]
  simp only [hcfg, hzero, if_true, hfin]

theorem Reconcile_deletion {W : Type} {env : Env W} {s t : St W} {ingress : Ingress}
    (h : DeletionPass env s ingress t) :
    Reconcile env s = deletionPhase env ingress t := by
  obtain ⟨s1, cfg, hget, hcfg, hzero, hfin⟩ := h
  obtain ⟨svc, ns, excl⟩ := cfg
  unfold Reconcile
  rw [hget]
  simp [hcfg, hzero, hfin]

theorem NormalPass_extends {W : Type} {env : Env W} {s t : St W} {ingress : Ingress}
    {svc ns : String} {excl : List String} (h : NormalPass env s ingress svc ns excl t) :
    Extends Event.isCluster s t := by
  obtain ⟨ingress0, s1, s2, hget, hcfg, hzero, hfin⟩ := h
  have h1 := (callGetIngress_extends env s).mono isRead_isCluster
  have h2 := (loadTraefikConfig_extends env s1).mono isRead_isCluster
  have h3 := addFinalizer_extends env ingress0 s2
  rw [hget] at h1
  rw [hcfg] at h2
  rw [hfin] at h3
  exact (h1.trans h2).trans h3

theorem DeletionPass_extends {W : Type} {env : Env W} {s t : St W} {ingress : Ingress}
    (h : DeletionPass env s ingress t) : Extends Event.isRead s t := by
  obtain ⟨s1, cfg, hget, hcfg, hzero, hfin⟩ := h
  have h1 := callGetIngress_extends env s
  have h2 := loadTraefikConfig_extends env s1
  rw [hget] at h1
  rw [hcfg] at h2
  exact h1.trans h2

theorem extractDomains_eq (ingress : Ingress) : extractDomains ingress = ingress.rules := by
  unfold extractDomains extractDomainsOfRules
  have h := foldl_append_filter (fun _ : String => true) ingress.rules []
  simpa using h

theorem removed_not_filtered (previous current excl : List String) :
    (difference previous current).filter
        (fun d => !containsString (excludeFilter current excl) d)
      = difference previous current := by
  rw [List.filter_eq_self]
  intro d hd
  rw [difference_eq_filter] at hd
  have hd' : d ∉ current := by simpa using (List.mem_filter.mp hd).2
  rw [containsString_eq_decide, excludeFilter_eq_filter]
  simp [hd']

theorem current_filtered (current excl : List String) :
    current.filter (fun d => containsString (excludeFilter current excl) d)
      = excludeFilter current excl := by
  rw [excludeFilter_eq_filter]
  apply List.filter_congr
  intro d hd
  rw [containsString_eq_decide]
  simp [hd]

theorem normalPhase_cloudflare {W : Type} (env : Env W) (ingress : Ingress)
    (svc ns : String) (excl : List String) (s s0 : St W) (ip src : String)
    (hlb : getLoadBalancerIP env ns svc s = (.ok ip, s0))
    (htyp : nilMapGet ingress.annotations "dns.configuration/type" = some "cloudflare")
    (hsrc : nilMapGet ingress.annotations "dns.configuration/source" = some src)
    (hne : excludeFilter (extractDomains ingress) excl ≠ []) :
    ∃ (s1 : St W) (cfg1 : Option GoMap) (outsR : List ((Bool × String) × (Bool × String))),
      Extends Event.isRead s s1
      ∧ outsR.length = (difference (previousDomainsOf ingress) (extractDomains ingress)).length
      ∧ (addStepState env ingress excl "cloudflare" src s0).trace = s1.trace ++ segments
          (deleteSegment (nilMapIndex cfg1 "zoneid") (nilMapIndex cfg1 "token") "A" "TXT")
          (difference (previousDomainsOf ingress) (extractDomains ingress)) outsR
      ∧ ((∃ err,
            (loadDNSConfiguration env src (addStepState env ingress excl "cloudflare" src s0)).1
              = .error err
            ∧ normalPhase env ingress svc ns excl s
              = (.error err,
                (loadDNSConfiguration env src
                  (addStepState env ingress excl "cloudflare" src s0)).2))
        ∨ (∃ (cfg : GoMap) (s4 : St W) (outsA : List (Bool × Bool)),
            (loadDNSConfiguration env src (addStepState env ingress excl "cloudflare" src s0)).1
              = .ok cfg
            ∧ outsA.length = (excludeFilter (extractDomains ingress) excl).length
            ∧ s4.trace
              = (loadDNSConfiguration env src
                  (addStepState env ingress excl "cloudflare" src s0)).2.trace ++ segments
                (syncSegment (nilMapIndex (some cfg) "zoneid") (nilMapIndex (some cfg) "token") ip)
                (excludeFilter (extractDomains ingress) excl) outsA
            ∧ normalPhase env ingress svc ns excl s
              = persistPreviousDomains env ingress (extractDomains ingress) excl s4)) := by
  have hlen : ¬ (excludeFilter (extractDomains ingress) excl).length = 0 := by
    simpa [List.length_eq_zero] using hne
  have e0 : Extends Event.isRead s s0 := by
    have := getLoadBalancerIP_extends env ns svc s
    rwa [hlb] at this
  have e1 := loadDNSConfiguration_extends env src s0
  obtain ⟨outsR, hR1, hR2⟩ := removalSweep_trace env
    (configOrNil (loadDNSConfiguration env src s0).1)
    (excludeFilter (extractDomains ingress) excl)
    (difference (previousDomainsOf ingress) (extractDomains ingress))
    (loadDNSConfiguration env src s0).2
  rw [removed_not_filtered] at hR1 hR2
  have hrs : addStepState env ingress excl "cloudflare" src s0
      = removalSweep env (configOrNil (loadDNSConfiguration env src s0).1)
          (excludeFilter (extractDomains ingress) excl)
          (difference (previousDomainsOf ingress) (extractDomains ingress))
          (loadDNSConfiguration env src s0).2 := by
    unfold addStepState removalSwitch
    rw [if_neg (by decide), if_pos rfl]
  rw [← hrs] at hR2
  refine ⟨(loadDNSConfiguration env src s0).2, configOrNil (loadDNSConfiguration env src s0).1,
    outsR, e0.trans e1, hR1, hR2, ?_⟩
  have hnp : normalPhase env ingress svc ns excl s
      = match addSwitch env "cloudflare" src ip (excludeFilter (extractDomains ingress) excl)
            (extractDomains ingress) (addStepState env ingress excl "cloudflare" src s0) with
        | (some err, s3) => (Outcome.error err, s3)
        | (none, s3) =>
          persistPreviousDomains env ingress (extractDomains ingress) excl s3 := by
    unfold normalPhase
    rw [hlb]
    simp only [htyp, hsrc, if_neg hlen]
    rfl
  rw [hnp]
  unfold addSwitch
  rw [if_neg (by decide), if_pos rfl]
  rcases hload : loadDNSConfiguration env src
      (addStepState env ingress excl "cloudflare" src s0) with ⟨r, s3⟩
  cases r with
  | error err => exact Or.inl ⟨err, rfl, rfl⟩
  | ok cfg =>
    obtain ⟨outsA, hA1, hA2⟩ := addSweep_trace env (some cfg) ip
      (excludeFilter (extractDomains ingress) excl) (extractDomains ingress) s3
    rw [current_filtered] at hA1 hA2
    exact Or.inr ⟨cfg, _, outsA, rfl, hA1, hA2, rfl⟩

theorem mapGet_mapSet (m : GoMap) (k v : String) : mapGet (mapSet m k v) k = some v := by
  induction m with
  | nil => simp [mapSet, mapGet]
  | cons p rest ih =>
    obtain ⟨k', v'⟩ := p
    by_cases h : k' = k
    · simp [mapSet, mapGet, h]
    · simp [mapSet, mapGet, h, ih]

theorem writePreviousDomains_ok {W : Type} (env : Env W)
    (currentDomains excludeDomains : List String) (ingress : Ingress) (s : St W)
    (hok : (writePreviousDomains env currentDomains excludeDomains ingress s).1 = Outcome.ok) :
    ∃ (pre : List Event) (obj : Ingress),
      (writePreviousDomains env currentDomains excludeDomains ingress s).2.2.trace
        = pre ++ [Event.updateIngress obj]
      ∧ nilMapGet obj.annotations previousDomainsKey
        = some (stringsJoin (difference currentDomains excludeDomains) ",") := by
  unfold writePreviousDomains at hok ⊢
  split at hok
  · simp at hok
  · rename_i obj s1 heq
    simp only [] at hok ⊢
    split at hok
    · simp at hok
    · rename_i annotations hann
      split at hok
      · simp at hok
      · rename_i s2 heq2
        refine ⟨s1.trace, { obj with annotations := some (mapSet annotations previousDomainsKey
          (stringsJoin (difference currentDomains excludeDomains) ",")) }, ?_, ?_⟩
        · have := congrArg (fun r => r.2.trace) heq2
          simpa [callUpdateIngress] using this.symm
        · simp [nilMapGet, mapGet_mapSet]

theorem persistPreviousDomains_extends {W : Type} (env : Env W) (ingress : Ingress)
    (currentDomains excludeDomains : List String) (s : St W) :
    Extends Event.isCluster s
      (persistPreviousDomains env ingress currentDomains excludeDomains s).2 :=
  retryOnConflict_extends _ (writePreviousDomains_extends env currentDomains excludeDomains)
    _ _ _ _

theorem persistPreviousDomains_ok {W : Type} (env : Env W) (ingress : Ingress)
    (currentDomains excludeDomains : List String) (s : St W) (hsteps : 0 < env.retrySteps)
    (hok : (persistPreviousDomains env ingress currentDomains excludeDomains s).1 = Outcome.ok) :
    ∃ (pre : List Event) (obj : Ingress),
      (persistPreviousDomains env ingress currentDomains excludeDomains s).2.trace
        = pre ++ [Event.updateIngress obj]
      ∧ nilMapGet obj.annotations previousDomainsKey
        = some (stringsJoin (difference currentDomains excludeDomains) ",") :=
  retryOnConflict_ok
    (Q := fun _ t => ∃ (pre : List Event) (obj : Ingress),
      t.trace = pre ++ [Event.updateIngress obj]
      ∧ nilMapGet obj.annotations previousDomainsKey
        = some (stringsJoin (difference currentDomains excludeDomains) ","))
    _ (writePreviousDomains_ok env currentDomains excludeDomains) _ _ _ _ (Or.inr hsteps) hok

theorem normalPhase_ok {W : Type} (env : Env W) (ingress : Ingress)
    (svc ns : String) (excl : List String) (s : St W) (typ src : String)
    (htyp : nilMapGet ingress.annotations "dns.configuration/type" = some typ)
    (hsrc : nilMapGet ingress.annotations "dns.configuration/source" = some src)
    (hne : excludeFilter (extractDomains ingress) excl ≠ [])
    (hok : (normalPhase env ingress svc ns excl s).1 = Outcome.ok) :
    ∃ s3 : St W, normalPhase env ingress svc ns excl s
      = persistPreviousDomains env ingress (extractDomains ingress) excl s3 := by
  have hlen : ¬ (excludeFilter (extractDomains ingress) excl).length = 0 := by
    simpa [List.length_eq_zero] using hne
  unfold normalPhase at hok ⊢
  split at hok
  · simp at hok
  · rename_i ip s1 heq
    simp only [htyp, hsrc, if_neg hlen] at hok ⊢
    split at hok
    · simp at hok
    · rename_i s3 heq3
      exact ⟨s3, rfl⟩

/-! ## Helper lemmas on segments -/

theorem segments_forall {O : Type} {P : Event → Prop} (seg : String → O → List Event)
    (h : ∀ d o, ∀ e ∈ seg d o, P e) (l : List String) (outs : List O) :
    ∀ e ∈ segments seg l outs, P e := by
  intro e he
  simp only [segments, List.mem_flatten, List.mem_map] at he
  obtain ⟨evs, ⟨p, _, rfl⟩, he⟩ := he
  exact h p.1 p.2 e he

theorem segments_nil {O : Type} (seg : String → O → List Event) (outs : List O) :
    segments seg [] outs = [] := by
  simp [segments]

theorem deleteSegment_noWrite (zone token typA typT d : String)
    (o : (Bool × String) × (Bool × String)) :
    ∀ e ∈ deleteSegment zone token typA typT d o, e.isWrite = false := by
  intro e he
  simp only [deleteSegment, List.mem_append, List.mem_singleton] at he
  rcases he with ((h | h) | h) | h
  · subst h; rfl
  · split at h
    · simp only [List.mem_singleton] at h; subst h; rfl
    · simp at h
  · subst h; rfl
  · split at h
    · simp only [List.mem_singleton] at h; subst h; rfl
    · simp at h

theorem syncSegment_noDelete (zone token ip d : String) (o : Bool × Bool) :
    ∀ e ∈ syncSegment zone token ip d o, e.isDelete = false ∧ lookedUp "A" [e] = [] := by
  intro e he
  simp only [syncSegment, List.mem_cons, List.mem_singleton, List.not_mem_nil, or_false] at he
  rcases he with h | h | h | h
  · subst h; exact ⟨rfl, by simp [lookedUp]⟩
  · subst h; split <;> exact ⟨rfl, by simp [lookedUp]⟩
  · subst h; exact ⟨rfl, by simp [lookedUp]⟩
  · subst h; split <;> exact ⟨rfl, by simp [lookedUp]⟩

theorem lookedUp_append (rtype : String) (l1 l2 : List Event) :
    lookedUp rtype (l1 ++ l2) = lookedUp rtype l1 ++ lookedUp rtype l2 := by
  simp [lookedUp, List.filterMap_append]

theorem lookedUp_nil_of_forall (rtype : String) (l : List Event)
    (h : ∀ e ∈ l, lookedUp rtype [e] = []) : lookedUp rtype l = [] := by
  induction l with
  | nil => rfl
  | cons e rest ih =>
    have h1 := h e (by simp)
    have h2 := ih (fun e' he' => h e' (by simp [he']))
    have : e :: rest = [e] ++ rest := rfl
    rw [this, lookedUp_append, h1, h2]
    rfl

theorem lookedUp_of_cluster (rtype : String) (e : Event) (h : e.isCluster) :
    lookedUp rtype [e] = [] := by
  cases e <;> simp_all [lookedUp, Event.isCluster, Event.isProvider, Event.isMutation]

theorem lookedUp_deleteSegments (zone token : String) (l : List String)
    (outs : List ((Bool × String) × (Bool × String))) (hlen : outs.length = l.length) :
    lookedUp "A" (segments (deleteSegment zone token "A" "TXT") l outs) = l := by
  induction l generalizing outs with
  | nil => simp [segments, lookedUp]
  | cons d rest ih =>
    cases outs with
    | nil => simp at hlen
    | cons o outs =>
      have hrest := ih outs (by simpa using hlen)
      have hcons : segments (deleteSegment zone token "A" "TXT") (d :: rest) (o :: outs)
          = deleteSegment zone token "A" "TXT" d o
            ++ segments (deleteSegment zone token "A" "TXT") rest outs := by
        simp [segments]
      rw [hcons, lookedUp_append, hrest]
      have hd : lookedUp "A" (deleteSegment zone token "A" "TXT" d o) = [d] := by
        simp only [deleteSegment, lookedUp_append]
        have h1 : lookedUp "A" [Event.getRecordId zone token d "A" o.1.1] = [d] := by
          simp [lookedUp]
        have h2 : lookedUp "A" [Event.getRecordId zone token d "TXT" o.2.1] = [] := by
          simp [lookedUp]
        have h3 : ∀ (b : Bool) (i : String),
            lookedUp "A" (if b then [Event.deleteRecord zone token i] else []) = [] := by
          intro b i
          cases b <;> simp [lookedUp]
        rw [h1, h2, h3, h3]
        rfl
      rw [hd]
      rfl

theorem isCluster_noDelete (e : Event) (h : e.isCluster) :
    e.isDelete = false ∧ lookedUp "A" [e] = [] := by
  refine ⟨?_, lookedUp_of_cluster "A" e h⟩
  cases e <;> simp_all [Event.isCluster, Event.isProvider, Event.isMutation, Event.isDelete]

theorem isCluster_noWrite (e : Event) (h : e.isCluster) : e.isWrite = false := by
  cases e <;> simp_all [Event.isCluster, Event.isProvider, Event.isMutation, Event.isWrite]

theorem normalPhase_cloudflare_tail {W : Type} (env : Env W) (ingress : Ingress)
    (svc ns : String) (excl : List String) (s s0 : St W) (ip src : String)
    (hlb : getLoadBalancerIP env ns svc s = (.ok ip, s0))
    (htyp : nilMapGet ingress.annotations "dns.configuration/type" = some "cloudflare")
    (hsrc : nilMapGet ingress.annotations "dns.configuration/source" = some src)
    (hne : excludeFilter (extractDomains ingress) excl ≠ []) :
    ∃ (s2 : St W) (reads : List Event) (zone token : String)
      (outs : List ((Bool × String) × (Bool × String))),
      s2.trace = s.trace ++ reads
        ++ segments (deleteSegment zone token "A" "TXT")
            (difference (previousDomainsOf ingress) (extractDomains ingress)) outs
      ∧ outs.length = (difference (previousDomainsOf ingress) (extractDomains ingress)).length
      ∧ (∀ e ∈ reads, e.isProvider = false)
      ∧ Extends (fun e => e.isDelete = false ∧ lookedUp "A" [e] = []) s2
          (normalPhase env ingress svc ns excl s).2 := by
  obtain ⟨s1, cfg1, outsR, hread, hlen, htrace, hcase⟩ :=
    normalPhase_cloudflare env ingress svc ns excl s s0 ip src hlb htyp hsrc hne
  obtain ⟨reads, hreads, hP⟩ := hread
  refine ⟨addStepState env ingress excl "cloudflare" src s0, reads, _, _, outsR,
    by rw [htrace, hreads], hlen, fun e he => (hP e he).1, ?_⟩
  have hcfg := (loadDNSConfiguration_extends env src
    (addStepState env ingress excl "cloudflare" src s0)).mono
    (fun e he => isCluster_noDelete e (isRead_isCluster e he))
  rcases hcase with ⟨err, _, hres⟩ | ⟨cfg, s4, outsA, _, _, hA, hres⟩
  · rw [hres]
    exact hcfg
  · rw [hres]
    have hsync : Extends (fun e => e.isDelete = false ∧ lookedUp "A" [e] = [])
        (loadDNSConfiguration env src (addStepState env ingress excl "cloudflare" src s0)).2
        s4 :=
      ⟨_, hA, segments_forall _ (syncSegment_noDelete _ _ ip) _ _⟩
    exact (hcfg.trans hsync).trans
      ((persistPreviousDomains_extends env ingress _ excl s4).mono isCluster_noDelete)

theorem normalPhase_extends {W : Type} {P : Event → Prop} (env : Env W) (ingress : Ingress)
    (svc ns : String) (excl : List String) (s : St W)
    (hP : ∀ e, e.isCluster → P e)
    (hrem : ∀ (typ src : String) (s' : St W),
      Extends P s' (addStepState env ingress excl typ src s'))
    (hadd : ∀ (typ src ip : String) (s' : St W),
      Extends P s' (addSwitch env typ src ip (excludeFilter (extractDomains ingress) excl)
        (extractDomains ingress) s').2) :
    Extends P s (normalPhase env ingress svc ns excl s).2 := by
  have h0 := (getLoadBalancerIP_extends env ns svc s).mono
    (fun e he => hP e (isRead_isCluster e he))
  unfold normalPhase
  split
  · rename_i err s1 heq
    rw [heq] at h0
    exact h0
  · rename_i ip s1 heq
    rw [heq] at h0
    split
    · exact h0
    · rename_i typ htyp
      split
      · exact h0
      · rename_i src hsrc
        simp only []
        split
        · exact h0
        · have h1 := hrem typ src s1
          have h2 := hadd typ src ip (addStepState env ingress excl typ src s1)
          have h01 := h0.trans h1
          split
          · rename_i err s3 heq3
            have h2' : Extends P (addStepState env ingress excl typ src s1) s3 := by
              have := h2
              unfold addStepState previousDomainsOf at this
              rw [heq3] at this
              exact this
            exact h01.trans h2'
          · rename_i s3 heq3
            have h2' : Extends P (addStepState env ingress excl typ src s1) s3 := by
              have := h2
              unfold addStepState previousDomainsOf at this
              rw [heq3] at this
              exact this
            exact (h01.trans h2').trans
              ((persistPreviousDomains_extends env ingress _ excl s3).mono hP)

theorem addSwitch_noDelete {W : Type} (env : Env W) (typ src ip : String)
    (filtered current : List String) (s : St W) :
    Extends (fun e => e.isDelete = false) s (addSwitch env typ src ip filtered current s).2 := by
  unfold addSwitch
  split
  · exact Extends.refl _ s
  · split
    · have h1 := (loadDNSConfiguration_extends env src s).mono
        (fun e he => (isCluster_noDelete e (isRead_isCluster e he)).1)
      split
      · rename_i err s1 heq
        rw [heq] at h1
        exact h1
      · rename_i cfg s1 heq
        rw [heq] at h1
        obtain ⟨outs, _, htr⟩ := addSweep_trace env (some cfg) ip filtered current s1
        exact h1.trans ⟨_, htr,
          segments_forall _ (fun d o e he => (syncSegment_noDelete _ _ ip d o e he).1) _ _⟩
    · exact Extends.refl _ s

theorem removalSwitch_nil {W : Type} (env : Env W) (typ src : String)
    (filtered : List String) (s : St W) :
    Extends Event.isRead s (removalSwitch env typ src filtered [] s) := by
  unfold removalSwitch
  split
  · exact Extends.refl _ s
  · split
    · simp only [removalSweep, List.foldl_nil]
      exact loadDNSConfiguration_extends env src s
    · exact Extends.refl _ s

theorem removalSwitch_noWrite {W : Type} (env : Env W) (typ src : String)
    (filtered removed : List String) (s : St W) :
    Extends (fun e => e.isWrite = false) s (removalSwitch env typ src filtered removed s) := by
  unfold removalSwitch
  split
  · exact Extends.refl _ s
  · split
    · have h1 := (loadDNSConfiguration_extends env src s).mono
        (fun e he => isCluster_noWrite e (isRead_isCluster e he))
      obtain ⟨outs, _, htr⟩ := removalSweep_trace env
        (configOrNil (loadDNSConfiguration env src s).1) filtered removed
        (loadDNSConfiguration env src s).2
      exact h1.trans ⟨_, htr,
        segments_forall _ (fun d o => deleteSegment_noWrite _ _ "A" "TXT" d o) _ _⟩
    · exact Extends.refl _ s

theorem difference_eq_nil_of_subset (a b : List String) (h : ∀ x ∈ a, x ∈ b) :
    difference a b = [] := by
  rw [difference_eq_filter, List.filter_eq_nil_iff]
  intro x hx
  simp [h x hx]

theorem Extends.filter_eq {W : Type} {s t : St W} (p : Event → Bool)
    (h : Extends (fun e => p e = false) s t) : t.trace.filter p = s.trace.filter p := by
  obtain ⟨evs, h1, p1⟩ := h
  have : evs.filter p = [] := by
    rw [List.filter_eq_nil_iff]
    intro e he
    simp [p1 e he]
  simp [h1, this]

theorem removeFinalizerAttempt_first {W : Type} (env : Env W) (ingress : Ingress)
    (s : St W) :
    ∃ rest, (removeFinalizerAttempt env ingress s).2.2.trace
      = s.trace ++ Event.getIngress :: rest := by
  unfold removeFinalizerAttempt
  split
  · rename_i err s1 heq
    have := congrArg (fun r => r.2.trace) heq
    exact ⟨[], by simpa [callGetIngress] using this.symm⟩
  · rename_i obj s1 heq
    have h1 := congrArg (fun r => r.2.trace) heq
    simp only [callGetIngress] at h1
    split
    · simp only []
      split
      · rename_i err s2 heq2
        have h2 := congrArg (fun r => r.2.trace) heq2
        simp only [callUpdateIngress] at h2
        exact ⟨[Event.updateIngress
          { obj with finalizers := removeString obj.finalizers ingressFinalizer }],
          by rw [← h2, ← h1]; simp⟩
      · rename_i s2 heq2
        have h2 := congrArg (fun r => r.2.trace) heq2
        simp only [callUpdateIngress] at h2
        exact ⟨[Event.updateIngress
          { obj with finalizers := removeString obj.finalizers ingressFinalizer }],
          by rw [← h2, ← h1]; simp⟩
    · exact ⟨[], by rw [← h1]⟩

theorem retryOnConflict_first {W : Type} (fn : Ingress → St W → Outcome × Ingress × St W)
    (e : Event)
    (hfn : ∀ ingress s, ∃ rest, (fn ingress s).2.2.trace = s.trace ++ e :: rest)
    (steps : Nat) (hsteps : 0 < steps) (lastErr : Option Err) (ingress : Ingress) (s : St W) :
    ∃ rest, (retryOnConflict fn steps lastErr ingress s).2.2.trace = s.trace ++ e :: rest := by
  cases steps with
  | zero => exact absurd hsteps (Nat.lt_irrefl 0)
  | succ n =>
    obtain ⟨rest, hrest⟩ := hfn ingress s
    have hext : ∀ ingress s, Extends (fun _ => True) s (fn ingress s).2.2 := by
      intro i s'
      obtain ⟨r, hr⟩ := hfn i s'
      exact ⟨e :: r, hr, fun _ _ => trivial⟩
    unfold retryOnConflict
    split
    · rename_i i1 s1 heq
      rw [heq] at hrest
      exact ⟨rest, hrest⟩
    · rename_i i1 s1 heq
      rw [heq] at hrest
      exact ⟨rest, hrest⟩
    · rename_i err i1 s1 heq
      rw [heq] at hrest
      split
      · obtain ⟨more, hmore, _⟩ := retryOnConflict_extends fn hext n (some err) i1 s1
        exact ⟨rest ++ more, by rw [hmore, hrest]; simp⟩
      · exact ⟨rest, hrest⟩

/-! ## Helper lemmas on the finalizer closures -/

theorem addFinalizerAttempt_eq {W : Type} (env : Env W) (ingress obj : Ingress) (s s1 : St W)
    (hget : callGetIngress env s = (.ok obj, s1)) :
    (containsString obj.finalizers ingressFinalizer = true →
      addFinalizerAttempt env ingress s = (Outcome.ok, obj, s1))
    ∧ (containsString obj.finalizers ingressFinalizer = false →
      (addFinalizerAttempt env ingress s).2.1
          = { obj with finalizers := obj.finalizers ++ [ingressFinalizer] }
      ∧ (addFinalizerAttempt env ingress s).2.2
          = (callUpdateIngress env
              { obj with finalizers := obj.finalizers ++ [ingressFinalizer] } s1).2) := by
  constructor
  · intro h
    unfold addFinalizerAttempt
    rw [hget]
    simp [h]
  · intro h
    unfold addFinalizerAttempt
    rw [hget]
    simp only [h, Bool.not_false, if_true]
    split <;> rename_i heq2 <;> rw [heq2] <;> exact ⟨rfl, rfl⟩

theorem removeFinalizerAttempt_eq {W : Type} (env : Env W) (ingress obj : Ingress)
    (s s1 : St W) (hget : callGetIngress env s = (.ok obj, s1)) :
    (containsString obj.finalizers ingressFinalizer = false →
      removeFinalizerAttempt env ingress s = (Outcome.ok, obj, s1))
    ∧ (containsString obj.finalizers ingressFinalizer = true →
      (removeFinalizerAttempt env ingress s).2.1
          = { obj with finalizers := removeString obj.finalizers ingressFinalizer }
      ∧ (removeFinalizerAttempt env ingress s).2.2
          = (callUpdateIngress env
              { obj with finalizers := removeString obj.finalizers ingressFinalizer } s1).2) := by
  constructor
  · intro h
    unfold removeFinalizerAttempt
    rw [hget]
    simp [h]
  · intro h
    unfold removeFinalizerAttempt
    rw [hget]
    simp only [h, if_true]
    split <;> rename_i heq2 <;> rw [heq2] <;> exact ⟨rfl, rfl⟩

theorem writtenObjects_callGetIngress {W : Type} (env : Env W) (s : St W) :
    writtenObjects (callGetIngress env s).2.trace = writtenObjects s.trace := by
  simp [callGetIngress, writtenObjects, List.filterMap_append]

theorem writtenObjects_callUpdateIngress {W : Type} (env : Env W) (obj : Ingress) (s : St W) :
    writtenObjects (callUpdateIngress env obj s).2.trace = writtenObjects s.trace ++ [obj] := by
  simp [callUpdateIngress, writtenObjects, List.filterMap_append]

theorem deleteSegment_noUpdateIngress (zone token typA typT d : String)
    (o : (Bool × String) × (Bool × String)) :
    ∀ e ∈ deleteSegment zone token typA typT d o, e.isUpdateIngress = false := by
  intro e he
  simp only [deleteSegment, List.mem_append, List.mem_singleton] at he
  rcases he with ((h | h) | h) | h
  · subst h; rfl
  · split at h
    · simp only [List.mem_singleton] at h; subst h; rfl
    · simp at h
  · subst h; rfl
  · split at h
    · simp only [List.mem_singleton] at h; subst h; rfl
    · simp at h

theorem normalPhase_config_error {W : Type} (env : Env W) (ingress : Ingress)
    (svc ns : String) (excl : List String) (s s0 : St W) (ip src : String) (err : Err)
    (hlb : getLoadBalancerIP env ns svc s = (.ok ip, s0))
    (htyp : nilMapGet ingress.annotations "dns.configuration/type" = some "cloudflare")
    (hsrc : nilMapGet ingress.annotations "dns.configuration/source" = some src)
    (hne : excludeFilter (extractDomains ingress) excl ≠ [])
    (hfail : (loadDNSConfiguration env src (addStepState env ingress excl "cloudflare" src s0)).1
      = .error err) :
    (normalPhase env ingress svc ns excl s).1 = Outcome.error err
    ∧ Extends (fun e => e.isWrite = false ∧ e.isUpdateIngress = false) s
        (normalPhase env ingress svc ns excl s).2 := by
  obtain ⟨s1, cfg1, outsR, hread, hlen, htrace, hcase⟩ :=
    normalPhase_cloudflare env ingress svc ns excl s s0 ip src hlb htyp hsrc hne
  have hR : ∀ e : Event, e.isRead → e.isWrite = false ∧ e.isUpdateIngress = false :=
    fun e he => ⟨isCluster_noWrite e (isRead_isCluster e he), he.2⟩
  rcases hcase with ⟨err', herr, hres⟩ | ⟨cfg, _, _, hcfg, _⟩
  · rw [hfail] at herr
    cases herr
    rw [hres]
    refine ⟨rfl, ?_⟩
    have h2 : Extends (fun e => e.isWrite = false ∧ e.isUpdateIngress = false) s1
        (addStepState env ingress excl "cloudflare" src s0) :=
      ⟨_, htrace, segments_forall _
        (fun d o e he => ⟨deleteSegment_noWrite _ _ "A" "TXT" d o e he,
          deleteSegment_noUpdateIngress _ _ "A" "TXT" d o e he⟩) _ _⟩
    exact ((hread.mono hR).trans h2).trans
      ((loadDNSConfiguration_extends env src _).mono hR)
  · rw [hfail] at hcfg
    cases hcfg

theorem addFinalizerAttempt_ok {W : Type} (env : Env W) (ingress : Ingress) (s : St W)
    (hok : (addFinalizerAttempt env ingress s).1 = Outcome.ok) :
    ingressFinalizer ∈ (addFinalizerAttempt env ingress s).2.1.finalizers := by
  rcases hget : callGetIngress env s with ⟨r, s1⟩
  cases r with
  | error err =>
    unfold addFinalizerAttempt at hok
    rw [hget] at hok
    simp at hok
  | ok obj =>
    obtain ⟨hyes, hno⟩ := addFinalizerAttempt_eq env ingress obj s s1 hget
    by_cases h : containsString obj.finalizers ingressFinalizer = true
    · rw [hyes h]
      simpa [containsString_eq_decide] using h
    · have h' : containsString obj.finalizers ingressFinalizer = false := by
        simpa using h
      rw [(hno h').1]
      simp

theorem removeFinalizerAttempt_ok {W : Type} (env : Env W) (ingress : Ingress) (s : St W)
    (hok : (removeFinalizerAttempt env ingress s).1 = Outcome.ok) :
    ingressFinalizer ∉ (removeFinalizerAttempt env ingress s).2.1.finalizers := by
  rcases hget : callGetIngress env s with ⟨r, s1⟩
  cases r with
  | error err =>
    unfold removeFinalizerAttempt at hok
    rw [hget] at hok
    simp at hok
  | ok obj =>
    obtain ⟨hno, hyes⟩ := removeFinalizerAttempt_eq env ingress obj s s1 hget
    by_cases h : containsString obj.finalizers ingressFinalizer = true
    · rw [(hyes h).1]
      simp [removeString_eq_filter]
    · have h' : containsString obj.finalizers ingressFinalizer = false := by
        simpa using h
      rw [hno h']
      simpa [containsString_eq_decide] using h'

/-! ## Helper lemmas on splitting and joining -/

theorem splitChars_ne_nil (sep : Char) (cs : List Char) : splitChars sep cs ≠ [] := by
  induction cs with
  | nil => simp [splitChars]
  | cons c rest ih =>
    unfold splitChars
    split
    · simp
    · split <;> simp

theorem splitChars_no_sep (sep : Char) (a : List Char) (h : sep ∉ a) :
    splitChars sep a = [a] := by
  induction a with
  | nil => rfl
  | cons c rest ih =>
    have hc : ¬ c = sep := fun e => h (by simp [e])
    have hrest : sep ∉ rest := fun e => h (by simp [e])
    unfold splitChars
    rw [if_neg hc, ih hrest]

theorem splitChars_append_sep (sep : Char) (a tail : List Char) (h : sep ∉ a) :
    splitChars sep (a ++ sep :: tail) = a :: splitChars sep tail := by
  induction a with
  | nil => simp [splitChars]
  | cons c rest ih =>
    have hc : ¬ c = sep := fun e => h (by simp [e])
    have hrest : sep ∉ rest := fun e => h (by simp [e])
    have hstep : splitChars sep (c :: (rest ++ sep :: tail))
        = match splitChars sep (rest ++ sep :: tail) with
          | [] => [[c]]
          | piece :: pieces => (c :: piece) :: pieces := by
      rw [splitChars, if_neg hc]
    rw [List.cons_append, hstep, ih hrest]

theorem stringsJoin_cons_cons (a b : String) (rest : List String) :
    (stringsJoin (a :: b :: rest) ",").data
      = a.data ++ ',' :: (stringsJoin (b :: rest) ",").data := by
  simp [stringsJoin, String.data_append]

theorem stringsSplit_stringsJoin (L : List String) (hne : L ≠ [])
    (hcomma : ∀ x ∈ L, ',' ∉ x.data) :
    stringsSplit (stringsJoin L ",") ',' = L := by
  induction L with
  | nil => exact absurd rfl hne
  | cons a rest ih =>
    have ha : ',' ∉ a.data := hcomma a (by simp)
    cases rest with
    | nil =>
      simp [stringsSplit, stringsJoin, splitChars_no_sep ',' a.data ha]
    | cons b rest =>
      have hrest := ih (by simp) (fun x hx => hcomma x (by simp [hx]))
      unfold stringsSplit at hrest ⊢
      rw [stringsJoin_cons_cons, splitChars_append_sep ',' _ _ ha, List.map_cons, hrest]

/-! ## Helper lemmas on the passes that call no provider -/

theorem removalSwitch_other {W : Type} (env : Env W) (typ src : String)
    (filtered removed : List String) (s : St W) (htyp : typ ≠ "cloudflare") :
    removalSwitch env typ src filtered removed s = s := by
  unfold removalSwitch
  by_cases hb : typ = "bind"
  · rw [if_pos hb]
  · rw [if_neg hb, if_neg htyp]

theorem addSwitch_other {W : Type} (env : Env W) (typ src ip : String)
    (filtered current : List String) (s : St W) (htyp : typ ≠ "cloudflare") :
    addSwitch env typ src ip filtered current s = (none, s) := by
  unfold addSwitch
  by_cases hb : typ = "bind"
  · rw [if_pos hb]
  · rw [if_neg hb, if_neg htyp]

theorem normalPhase_other {W : Type} (env : Env W) (ingress : Ingress)
    (svc ns : String) (excl : List String) (s s0 : St W) (ip typ src : String)
    (hlb : getLoadBalancerIP env ns svc s = (.ok ip, s0))
    (htyp : nilMapGet ingress.annotations "dns.configuration/type" = some typ)
    (hother : typ ≠ "cloudflare")
    (hsrc : nilMapGet ingress.annotations "dns.configuration/source" = some src)
    (hne : excludeFilter (extractDomains ingress) excl ≠ []) :
    normalPhase env ingress svc ns excl s
      = persistPreviousDomains env ingress (extractDomains ingress) excl s0 := by
  have hlen : ¬ (excludeFilter (extractDomains ingress) excl).length = 0 := by
    simpa [List.length_eq_zero] using hne
  unfold normalPhase
  rw [hlb]
  simp only [htyp, hsrc, if_neg hlen, removalSwitch_other env typ src _ _ s0 hother,
    addSwitch_other env typ src ip _ _ s0 hother]

theorem normalPhase_all_excluded {W : Type} (env : Env W) (ingress : Ingress)
    (svc ns : String) (excl : List String) (s s0 : St W) (ip typ src : String)
    (hlb : getLoadBalancerIP env ns svc s = (.ok ip, s0))
    (htyp : nilMapGet ingress.annotations "dns.configuration/type" = some typ)
    (hsrc : nilMapGet ingress.annotations "dns.configuration/source" = some src)
    (hnil : excludeFilter (extractDomains ingress) excl = []) :
    normalPhase env ingress svc ns excl s = (Outcome.ok, s0) := by
  unfold normalPhase
  rw [hlb]
  simp [htyp, hsrc, hnil]

theorem addFinalizerAttempt_writes {W : Type} (env : Env W) (ingress obj : Ingress)
    (s s1 : St W) (hget : callGetIngress env s = (.ok obj, s1)) :
    ∃ ws : List Ingress,
      writtenObjects (addFinalizerAttempt env ingress s).2.2.trace = writtenObjects s.trace ++ ws
      ∧ ∀ o ∈ ws, o.annotations = obj.annotations := by
  obtain ⟨hyes, hno⟩ := addFinalizerAttempt_eq env ingress obj s s1 hget
  have hs1 : writtenObjects s1.trace = writtenObjects s.trace := by
    have := writtenObjects_callGetIngress env s
    rwa [hget] at this
  by_cases h : containsString obj.finalizers ingressFinalizer = true
  · rw [hyes h]
    exact ⟨[], by simp [hs1], by simp⟩
  · have h' : containsString obj.finalizers ingressFinalizer = false := by
      simpa using h
    rw [(hno h').2, writtenObjects_callUpdateIngress, hs1]
    exact ⟨[{ obj with finalizers := obj.finalizers ++ [ingressFinalizer] }], rfl, by simp⟩

/-! ## Helper lemmas on the Cloudflare functions -/

theorem AddRecord_response {W : Type} (http : HttpEnv W) (w w1 : W)
    (zoneID token domain rtype ip : String) (proxied : Bool) (jsonData : String)
    (resp : HttpResponse)
    (hjson : http.jsonMarshal
      { type := rtype, name := domain, content := ip, ttl := 1, proxied := proxied }
      = .ok jsonData)
    (hreq : http.newRequest "POST"
      ("https://api.cloudflare.com/client/v4/zones/" ++ zoneID ++ "/dns_records") = none)
    (hdo : http.doRequest w
      { method := "POST",
        url := "https://api.cloudflare.com/client/v4/zones/" ++ zoneID ++ "/dns_records",
        headers := requestHeaders token, body := some jsonData } = (.ok resp, w1)) :
    (AddRecord http w zoneID token domain rtype ip proxied).1.2 = none
    ∧ (resp.statusCode ≠ 200 →
        AddRecord http w zoneID token domain rtype ip proxied = (("", none), w1)) := by
  unfold AddRecord
  simp only [hjson, hreq, hdo]
  by_cases h : resp.statusCode = 200
  · simp [h]
  · simp [h]

theorem AddRecord_transport {W : Type} (http : HttpEnv W) (w w1 : W)
    (zoneID token domain rtype ip : String) (proxied : Bool) (jsonData : String) (err : Err)
    (hjson : http.jsonMarshal
      { type := rtype, name := domain, content := ip, ttl := 1, proxied := proxied }
      = .ok jsonData)
    (hreq : http.newRequest "POST"
      ("https://api.cloudflare.com/client/v4/zones/" ++ zoneID ++ "/dns_records") = none)
    (hdo : http.doRequest w
      { method := "POST",
        url := "https://api.cloudflare.com/client/v4/zones/" ++ zoneID ++ "/dns_records",
        headers := requestHeaders token, body := some jsonData } = (.error err, w1)) :
    AddRecord http w zoneID token domain rtype ip proxied = (("", some err), w1) := by
  unfold AddRecord
  simp only [hjson, hreq, hdo]

theorem DeleteRecord_response {W : Type} (http : HttpEnv W) (w w1 : W)
    (zoneID token recordID : String) (resp : HttpResponse)
    (hreq : http.newRequest "DELETE"
      ("https://api.cloudflare.com/client/v4/zones/" ++ zoneID ++ "/dns_records/" ++ recordID)
      = none)
    (hdo : http.doRequest w
      { method := "DELETE",
        url := "https://api.cloudflare.com/client/v4/zones/" ++ zoneID ++ "/dns_records/"
          ++ recordID,
        headers := requestHeaders token, body := none } = (.ok resp, w1)) :
    (DeleteRecord http w zoneID token recordID).1.2 = none
    ∧ (resp.statusCode ≠ 200 →
        DeleteRecord http w zoneID token recordID = ((false, none), w1)) := by
  unfold DeleteRecord
  simp only [hreq, hdo]
  by_cases h : resp.statusCode = 200
  · simp [h]
  · simp [h]

theorem DeleteRecord_transport {W : Type} (http : HttpEnv W) (w w1 : W)
    (zoneID token recordID : String) (err : Err)
    (hreq : http.newRequest "DELETE"
      ("https://api.cloudflare.com/client/v4/zones/" ++ zoneID ++ "/dns_records/" ++ recordID)
      = none)
    (hdo : http.doRequest w
      { method := "DELETE",
        url := "https://api.cloudflare.com/client/v4/zones/" ++ zoneID ++ "/dns_records/"
          ++ recordID,
        headers := requestHeaders token, body := none } = (.error err, w1)) :
    DeleteRecord http w zoneID token recordID = ((false, some err), w1) := by
  unfold DeleteRecord
  simp only [hreq, hdo]

theorem UpdateRecord_response {W : Type} (http : HttpEnv W) (w w1 w2 : W)
    (zoneID token domain rtype ip : String) (proxied : Bool) (recordID jsonData : String)
    (resp : HttpResponse)
    (hget : GetRecordId http w zoneID token domain rtype = ((true, recordID, none), w1))
    (hjson : http.jsonMarshal
      { type := rtype, name := domain, content := ip, ttl := 1, proxied := proxied }
      = .ok jsonData)
    (hreq : http.newRequest "PUT"
      ("https://api.cloudflare.com/client/v4/zones/" ++ zoneID ++ "/dns_records/" ++ recordID)
      = none)
    (hdo : http.doRequest w1
      { method := "PUT",
        url := "https://api.cloudflare.com/client/v4/zones/" ++ zoneID ++ "/dns_records/"
          ++ recordID,
        headers := requestHeaders token, body := some jsonData } = (.ok resp, w2)) :
    (UpdateRecord http w zoneID token domain rtype ip proxied).1.2 = none
    ∧ (resp.statusCode ≠ 200 →
        UpdateRecord http w zoneID token domain rtype ip proxied = (("", none), w2)) := by
  unfold UpdateRecord
  simp only [hget, if_true, hjson, hreq, hdo]
  by_cases h : resp.statusCode = 200
  · simp [h]
  · simp [h]

/-! ## Helper lemmas on passes that return early -/

theorem retryOnConflict_first_ok {W : Type}
    (fn : Ingress → St W → Outcome × Ingress × St W) (steps : Nat) (lastErr : Option Err)
    (ingress : Ingress) (s : St W) (hok : (fn ingress s).1 = Outcome.ok) :
    retryOnConflict fn (steps + 1) lastErr ingress s = fn ingress s := by
  rcases hfn : fn ingress s with ⟨o, i1, s1⟩
  rw [hfn] at hok
  simp only at hok
  subst hok
  rw [retryOnConflict, hfn]

theorem Reconcile_start {W : Type} {env : Env W} {s s2 : St W} {ingress0 : Ingress}
    {svc ns : String} {excl : List String} (h : NormalStart env s ingress0 svc ns excl s2) :
    Reconcile env s
      = match (addFinalizer env ingress0 s2).1 with
        | .ok => normalPhase env (addFinalizer env ingress0 s2).2.1 svc ns excl
            (addFinalizer env ingress0 s2).2.2
        | outcome => (outcome, (addFinalizer env ingress0 s2).2.2) := by
  obtain ⟨s1, hget, hcfg, hzero⟩ := h
  unfold Reconcile
  rw [hget]
  simp only [hcfg, hzero, if_true]

theorem NormalStart_extends {W : Type} {env : Env W} {s s2 : St W} {ingress0 : Ingress}
    {svc ns : String} {excl : List String} (h : NormalStart env s ingress0 svc ns excl s2) :
    Extends Event.isRead s s2 := by
  obtain ⟨s1, hget, hcfg, hzero⟩ := h
  have h1 := callGetIngress_extends env s
  have h2 := loadTraefikConfig_extends env s1
  rw [hget] at h1
  rw [hcfg] at h2
  exact h1.trans h2

theorem Reconcile_start_extends {W : Type} {P : Event → Prop} {env : Env W} {s s2 : St W}
    {ingress0 : Ingress} {svc ns : String} {excl : List String}
    (h : NormalStart env s ingress0 svc ns excl s2)
    (hnp : Extends P (addFinalizer env ingress0 s2).2.2
      (normalPhase env (addFinalizer env ingress0 s2).2.1 svc ns excl
        (addFinalizer env ingress0 s2).2.2).2) :
    Extends P (addFinalizer env ingress0 s2).2.2 (Reconcile env s).2 := by
  rw [Reconcile_start h]
  split
  · exact hnp
  · exact Extends.refl P _

theorem normalPhase_empty_extends {W : Type} (env : Env W) (ingress : Ingress)
    (svc ns : String) (excl : List String) (s : St W)
    (hnil : excludeFilter (extractDomains ingress) excl = []) :
    Extends Event.isRead s (normalPhase env ingress svc ns excl s).2 := by
  have h0 := getLoadBalancerIP_extends env ns svc s
  unfold normalPhase
  split
  · rename_i err s1 heq
    rw [heq] at h0
    exact h0
  · rename_i ip s1 heq
    rw [heq] at h0
    split
    · exact h0
    · split
      · exact h0
      · simp only [hnil, List.length_nil, if_true]
        exact h0

theorem normalPhase_lb_error {W : Type} (env : Env W) (ingress : Ingress)
    (svc ns : String) (excl : List String) (s s0 : St W) (err : Err)
    (hlb : getLoadBalancerIP env ns svc s = (.error err, s0)) :
    normalPhase env ingress svc ns excl s = (Outcome.error err, s0) := by
  unfold normalPhase
  rw [hlb]

theorem normalPhase_other_extends {W : Type} (env : Env W) (ingress : Ingress)
    (svc ns : String) (excl : List String) (s : St W)
    (hother : nilMapGet ingress.annotations "dns.configuration/type" ≠ some "cloudflare") :
    Extends Event.isCluster s (normalPhase env ingress svc ns excl s).2 := by
  have h0 := (getLoadBalancerIP_extends env ns svc s).mono isRead_isCluster
  unfold normalPhase
  split
  · rename_i err s1 heq
    rw [heq] at h0
    exact h0
  · rename_i ip s1 heq
    rw [heq] at h0
    split
    · exact h0
    · rename_i typ htyp
      have hne : typ ≠ "cloudflare" := fun e => hother (by rw [htyp, e])
      split
      · exact h0
      · rename_i src hsrc
        simp only [removalSwitch_other env typ src _ _ s1 hne,
          addSwitch_other env typ src ip _ _ s1 hne]
        split
        · exact h0
        · exact h0.trans (persistPreviousDomains_extends env ingress _ excl s1)

/-! ## Helper lemmas on the mutations of the add sweep -/

theorem isCluster_noMutation (e : Event) (h : e.isCluster) : e.isMutation = false := by
  cases e <;> simp_all [Event.isCluster, Event.isProvider, Event.isMutation]

theorem syncSegment_mutations (zone token ip d : String) (o : Bool × Bool) :
    (syncSegment zone token ip d o).filter Event.isMutation = syncWrites zone token ip d o := by
  obtain ⟨o1, o2⟩ := o
  cases o1 <;> cases o2 <;> rfl

theorem segments_sync_mutations (zone token ip : String) (l : List String)
    (outs : List (Bool × Bool)) :
    (segments (syncSegment zone token ip) l outs).filter Event.isMutation
      = segments (syncWrites zone token ip) l outs := by
  induction l generalizing outs with
  | nil => simp [segments]
  | cons d rest ih =>
    cases outs with
    | nil => simp [segments]
    | cons o outs =>
      have h1 : segments (syncSegment zone token ip) (d :: rest) (o :: outs)
          = syncSegment zone token ip d o ++ segments (syncSegment zone token ip) rest outs := by
        simp [segments]
      have h2 : segments (syncWrites zone token ip) (d :: rest) (o :: outs)
          = syncWrites zone token ip d o ++ segments (syncWrites zone token ip) rest outs := by
        simp [segments]
      rw [h1, h2, List.filter_append, syncSegment_mutations, ih]

theorem normalPhase_resolved_mutations {W : Type} (env : Env W) (ingress : Ingress)
    (svc ns : String) (excl : List String) (s s0 : St W) (ip src : String) (cfg : GoMap)
    (hlb : getLoadBalancerIP env ns svc s = (.ok ip, s0))
    (htyp : nilMapGet ingress.annotations "dns.configuration/type" = some "cloudflare")
    (hsrc : nilMapGet ingress.annotations "dns.configuration/source" = some src)
    (hrem : difference (previousDomainsOf ingress) (extractDomains ingress) = [])
    (hres : (loadDNSConfiguration env src (addStepState env ingress excl "cloudflare" src s0)).1
      = .ok cfg) :
    ∃ (zone token : String) (outs : List (Bool × Bool)),
      outs.length = (excludeFilter (extractDomains ingress) excl).length
      ∧ (normalPhase env ingress svc ns excl s).2.trace.filter Event.isMutation
        = s.trace.filter Event.isMutation
          ++ segments (syncWrites zone token ip) (excludeFilter (extractDomains ingress) excl)
              outs := by
  have hM : ∀ e : Event, e.isRead → e.isMutation = false :=
    fun e he => isCluster_noMutation e (isRead_isCluster e he)
  by_cases hne : excludeFilter (extractDomains ingress) excl = []
  · refine ⟨"", "", [], by simp [hne], ?_⟩
    rw [hne, segments_nil, List.append_nil]
    exact ((normalPhase_empty_extends env ingress svc ns excl s hne).mono hM).filter_eq
      Event.isMutation
  · obtain ⟨s1, cfg1, outsR, hread, hlen, htrace, hcase⟩ :=
      normalPhase_cloudflare env ingress svc ns excl s s0 ip src hlb htyp hsrc hne
    rw [hrem, segments_nil, List.append_nil] at htrace
    rcases hcase with ⟨err, herr, _⟩ | ⟨cfg', s4, outsA, _, hlenA, hA, hres4⟩
    · rw [hres] at herr
      cases herr
    · have h1 : Extends (fun e => e.isMutation = false) s
          (addStepState env ingress excl "cloudflare" src s0) := by
        obtain ⟨evs, hevs, hP⟩ := hread.mono hM
        exact ⟨evs, by rw [htrace, hevs], hP⟩
      have h2 := (loadDNSConfiguration_extends env src
        (addStepState env ingress excl "cloudflare" src s0)).mono hM
      have h3 := (persistPreviousDomains_extends env ingress (extractDomains ingress) excl
        s4).mono isCluster_noMutation
      refine ⟨nilMapIndex (some cfg') "zoneid", nilMapIndex (some cfg') "token", outsA,
        hlenA, ?_⟩
      rw [hres4, h3.filter_eq Event.isMutation, hA, List.filter_append,
        (h1.trans h2).filter_eq Event.isMutation, segments_sync_mutations]

/-! ## Helper lemmas on the finalizer methods -/

theorem addFinalizer_present {W : Type} (env : Env W) (ingress obj : Ingress) (s s1 : St W)
    (hsteps : 0 < env.retrySteps)
    (hget : callGetIngress env s = (.ok obj, s1))
    (h : containsString obj.finalizers ingressFinalizer = true) :
    addFinalizer env ingress s = (Outcome.ok, obj, s1) := by
  have hatt := (addFinalizerAttempt_eq env ingress obj s s1 hget).1 h
  obtain ⟨n, hn⟩ := Nat.exists_eq_succ_of_ne_zero (Nat.pos_iff_ne_zero.mp hsteps)
  unfold addFinalizer
  rw [hn, retryOnConflict_first_ok _ n none ingress s (by rw [hatt]), hatt]

theorem addFinalizer_absent {W : Type} (env : Env W) (ingress obj : Ingress) (s s1 s2 : St W)
    (hsteps : 0 < env.retrySteps)
    (hget : callGetIngress env s = (.ok obj, s1))
    (h : containsString obj.finalizers ingressFinalizer = false)
    (hupd : callUpdateIngress env
      { obj with finalizers := obj.finalizers ++ [ingressFinalizer] } s1 = (none, s2)) :
    addFinalizer env ingress s
      = (Outcome.ok, { obj with finalizers := obj.finalizers ++ [ingressFinalizer] }, s2) := by
  have hatt : addFinalizerAttempt env ingress s
      = (Outcome.ok, { obj with finalizers := obj.finalizers ++ [ingressFinalizer] }, s2) := by
    unfold addFinalizerAttempt
    rw [hget]
    simp only [h, Bool.not_false, if_true, hupd]
  obtain ⟨n, hn⟩ := Nat.exists_eq_succ_of_ne_zero (Nat.pos_iff_ne_zero.mp hsteps)
  unfold addFinalizer
  rw [hn, retryOnConflict_first_ok _ n none ingress s (by rw [hatt]), hatt]

theorem addFinalizerAttempt_ensure {W : Type} (env : Env W) (ingress obj : Ingress)
    (s s1 : St W)
    (hget : callGetIngress env s = (.ok obj, s1))
    (hcount : obj.finalizers.count ingressFinalizer ≤ 1) :
    (addFinalizerAttempt env ingress s).2.1.finalizers.count ingressFinalizer = 1
    ∧ (addFinalizerAttempt env ingress s).2.1
        = { obj with finalizers :=
              if containsString obj.finalizers ingressFinalizer then obj.finalizers
              else obj.finalizers ++ [ingressFinalizer] }
    ∧ (addFinalizerAttempt env ingress s).2.1.finalizers.filter (fun f => f ≠ ingressFinalizer)
        = obj.finalizers.filter (fun f => f ≠ ingressFinalizer)
    ∧ writtenObjects (addFinalizerAttempt env ingress s).2.2.trace
        = writtenObjects s.trace
          ++ (if containsString obj.finalizers ingressFinalizer then []
              else [(addFinalizerAttempt env ingress s).2.1])
    ∧ (∀ (ingress' : Ingress) (s' s1' : St W),
        callGetIngress env s' = (.ok (addFinalizerAttempt env ingress s).2.1, s1') →
        addFinalizerAttempt env ingress' s'
          = (Outcome.ok, (addFinalizerAttempt env ingress s).2.1, s1')) := by
  obtain ⟨hyes, hno⟩ := addFinalizerAttempt_eq env ingress obj s s1 hget
  have hs1 : writtenObjects s1.trace = writtenObjects s.trace := by
    have := writtenObjects_callGetIngress env s
    rwa [hget] at this
  by_cases h : containsString obj.finalizers ingressFinalizer = true
  · have hr := hyes h
    have hmem : ingressFinalizer ∈ obj.finalizers := by
      simpa [containsString_eq_decide] using h
    have hc1 : obj.finalizers.count ingressFinalizer = 1 :=
      le_antisymm hcount (List.count_pos_iff.mpr hmem)
    rw [hr]
    refine ⟨hc1, by simp [h], rfl, by simp [h, hs1], ?_⟩
    intro ingress' s' s1' hget'
    exact (addFinalizerAttempt_eq env ingress' obj s' s1' hget').1 h
  · have h' : containsString obj.finalizers ingressFinalizer = false := by
      simpa using h
    obtain ⟨hobj, hst⟩ := hno h'
    have hnmem : ingressFinalizer ∉ obj.finalizers := by
      simpa [containsString_eq_decide] using h'
    rw [hobj, hst, writtenObjects_callUpdateIngress, hs1]
    refine ⟨?_, by simp [h'], ?_, by simp [h'], ?_⟩
    · simp [List.count_append, List.count_eq_zero.mpr hnmem]
    · simp [List.filter_append]
    · intro ingress' s' s1' hget'
      apply (addFinalizerAttempt_eq env ingress' _ s' s1' hget').1
      simp [containsString_eq_decide]

/-! ## Helper lemmas on the outcome of the normal phase -/

theorem Reconcile_start_named {W : Type} {env : Env W} {s s2 t : St W}
    {ingress0 ingress : Ingress} {svc ns : String} {excl : List String} {o : Outcome}
    (h : NormalStart env s ingress0 svc ns excl s2)
    (hfin : addFinalizer env ingress0 s2 = (o, ingress, t)) :
    (o = Outcome.ok → Reconcile env s = normalPhase env ingress svc ns excl t)
    ∧ (o ≠ Outcome.ok → Reconcile env s = (o, t)) := by
  rw [Reconcile_start h, hfin]
  constructor
  · intro ho
    subst ho
    rfl
  · intro ho
    cases o with
    | ok => exact absurd rfl ho
    | error e => rfl
    | panic => rfl

theorem Reconcile_start_named_extends {W : Type} {P : Event → Prop} {env : Env W}
    {s s2 t : St W} {ingress0 ingress : Ingress} {svc ns : String} {excl : List String}
    {o : Outcome}
    (h : NormalStart env s ingress0 svc ns excl s2)
    (hfin : addFinalizer env ingress0 s2 = (o, ingress, t))
    (hnp : Extends P t (normalPhase env ingress svc ns excl t).2) :
    Extends P t (Reconcile env s).2 := by
  obtain ⟨hok, hfail⟩ := Reconcile_start_named h hfin
  by_cases ho : o = Outcome.ok
  · rw [hok ho]
    exact hnp
  · rw [hfail ho]
    exact Extends.refl P t

theorem NormalStart_finalizer_extends {W : Type} {env : Env W} {s s2 t : St W}
    {ingress0 ingress : Ingress} {svc ns : String} {excl : List String} {o : Outcome}
    (h : NormalStart env s ingress0 svc ns excl s2)
    (hfin : addFinalizer env ingress0 s2 = (o, ingress, t)) :
    Extends Event.isCluster s t := by
  have h1 := (NormalStart_extends h).mono isRead_isCluster
  have h2 := addFinalizer_extends env ingress0 s2
  rw [hfin] at h2
  exact h1.trans h2

theorem normalPhase_empty_ok {W : Type} (env : Env W) (ingress : Ingress)
    (svc ns : String) (excl : List String) (s s0 : St W) (ip : String)
    (hlb : getLoadBalancerIP env ns svc s = (.ok ip, s0))
    (hnil : excludeFilter (extractDomains ingress) excl = []) :
    normalPhase env ingress svc ns excl s = (Outcome.ok, s0) := by
  unfold normalPhase
  rw [hlb]
  simp only []
  split
  · rfl
  · split
    · rfl
    · simp [hnil]

theorem persistPreviousDomains_accepted {W : Type} (env : Env W) (ingress obj : Ingress)
    (currentDomains excludeDomains : List String) (ann : GoMap) (s s1 s2 : St W)
    (hsteps : 0 < env.retrySteps)
    (hget : callGetIngress env s = (.ok obj, s1))
    (hann : obj.annotations = some ann)
    (hupd : callUpdateIngress env
      { obj with annotations := some (mapSet ann previousDomainsKey
          (stringsJoin (difference currentDomains excludeDomains) ",")) } s1 = (none, s2)) :
    persistPreviousDomains env ingress currentDomains excludeDomains s = (Outcome.ok, s2) := by
  have hatt : ∀ i : Ingress, writePreviousDomains env currentDomains excludeDomains i s
      = (Outcome.ok, { obj with annotations := some (mapSet ann previousDomainsKey
          (stringsJoin (difference currentDomains excludeDomains) ",")) }, s2) := by
    intro i
    unfold writePreviousDomains
    rw [hget]
    simp only [hann, hupd]
  obtain ⟨n, hn⟩ := Nat.exists_eq_succ_of_ne_zero (Nat.pos_iff_ne_zero.mp hsteps)
  unfold persistPreviousDomains
  simp only [hn]
  rw [retryOnConflict_first_ok _ n none _ s (by rw [hatt]), hatt]

theorem addFinalizer_written {W : Type} (env : Env W) (ingress obj : Ingress) (s s1 : St W)
    (hsteps : 0 < env.retrySteps)
    (hget : callGetIngress env s = (.ok obj, s1)) :
    (containsString obj.finalizers ingressFinalizer = true →
      writtenObjects (addFinalizer env ingress s).2.2.trace = writtenObjects s.trace)
    ∧ (containsString obj.finalizers ingressFinalizer = false →
        ∀ s2 : St W,
          callUpdateIngress env
            { obj with finalizers := obj.finalizers ++ [ingressFinalizer] } s1 = (none, s2) →
          writtenObjects (addFinalizer env ingress s).2.2.trace
            = writtenObjects s.trace
              ++ [{ obj with finalizers := obj.finalizers ++ [ingressFinalizer] }]) := by
  have hs1 : writtenObjects s1.trace = writtenObjects s.trace := by
    have := writtenObjects_callGetIngress env s
    rwa [hget] at this
  constructor
  · intro h
    rw [addFinalizer_present env ingress obj s s1 hsteps hget h]
    exact hs1
  · intro h s2 hupd
    rw [addFinalizer_absent env ingress obj s s1 s2 hsteps hget h hupd]
    have := writtenObjects_callUpdateIngress env
      { obj with finalizers := obj.finalizers ++ [ingressFinalizer] } s1
    rw [hupd] at this
    rw [this, hs1]

/-! ## Claims -/

/-- C1: `difference(A, B)` is `A` with every element occurring in `B` removed: an element
is in the result iff it is in `A` and not in `B`, the kept elements keep the order and the
multiplicity they have in `A`; `difference(A, A)` is empty and `difference(A, [])` is `A`. -/
theorem difference_spec (A B : List String) :
    difference A B = A.filter (fun x => decide (x ∉ B))
    ∧ (∀ x, x ∈ difference A B ↔ x ∈ A ∧ x ∉ B)
    ∧ (difference A B).Sublist A
    ∧ (∀ x, x ∉ B → (difference A B).count x = A.count x)
    ∧ difference A A = []
    ∧ difference A [] = A := by
  have h := difference_eq_filter A B
  refine ⟨h, ?_, ?_, ?_, difference_eq_nil_of_subset A A (fun _ hx => hx), ?_⟩
  · intro x
    rw [h]
    simp
  · rw [h]
    exact List.filter_sublist A
  · intro x hx
    rw [h, List.count_filter]
    simpa using hx
  · rw [difference_eq_filter]
    simp

/-- C2: in a successful normal-phase pass whose filtered list is not empty, the list the
retry closure joins, `difference(currentDomains, excludeDomains)`, is the `filteredDomains`
of the exclude loop, and the last call of the pass is the write of the object carrying
that comma-join under `dns.configuration/previous-domains`. -/
theorem previous_domains_persisted {W : Type} (env : Env W) (s t : St W) (ingress : Ingress)
    (svc ns : String) (excl : List String) (typ src : String)
    (hpass : NormalPass env s ingress svc ns excl t)
    (htyp : nilMapGet ingress.annotations "dns.configuration/type" = some typ)
    (hsrc : nilMapGet ingress.annotations "dns.configuration/source" = some src)
    (hne : excludeFilter (extractDomains ingress) excl ≠ [])
    (hsteps : 0 < env.retrySteps)
    (hok : (Reconcile env s).1 = Outcome.ok) :
    difference (extractDomains ingress) excl = excludeFilter (extractDomains ingress) excl
    ∧ excludeFilter (extractDomains ingress) excl
        = ingress.rules.filter (fun h => !containsString excl h)
    ∧ ∃ (pre : List Event) (obj : Ingress),
        (Reconcile env s).2.trace = pre ++ [Event.updateIngress obj]
        ∧ nilMapGet obj.annotations previousDomainsKey
          = some (stringsJoin (excludeFilter (extractDomains ingress) excl) ",") := by
  have hdiff : difference (extractDomains ingress) excl
      = excludeFilter (extractDomains ingress) excl := by
    rw [difference_eq_filter, excludeFilter_eq_filter]
  refine ⟨hdiff, ?_, ?_⟩
  · rw [excludeFilter_eq_filter, extractDomains_eq]
    apply List.filter_congr
    intro x _
    simp [containsString_eq_decide]
  · rw [Reconcile_normal hpass] at hok ⊢
    obtain ⟨s3, h3⟩ := normalPhase_ok env ingress svc ns excl t typ src htyp hsrc hne hok
    rw [h3] at hok ⊢
    rw [← hdiff]
    exact persistPreviousDomains_ok env ingress _ excl s3 hsteps hok

/-- Witness of C2: hosts `a.example.com`, `c.example.com`, the second one excluded. -/
theorem previous_domains_persisted_witness :
    ∃ (pre : List Event) (obj : Ingress),
      (runPass clusterEnv (clusterWith (optedIn ["a.example.com", "c.example.com"] none)
        (some "- c.example.com\n"))).2.trace = pre ++ [Event.updateIngress obj]
      ∧ nilMapGet obj.annotations previousDomainsKey = some "a.example.com" :=
  (previous_domains_persisted clusterEnv
    ⟨clusterWith (optedIn ["a.example.com", "c.example.com"] none) (some "- c.example.com\n"), []⟩
    _ _ "traefik" "kube-system" ["c.example.com"] "cloudflare" "dns-config"
    ⟨_, _, _, rfl, rfl, rfl, rfl⟩ rfl rfl (by decide) (by decide) (by decide)).2.2

/-- C3 (as amended): in a normal-phase pass of type `cloudflare` (finalizer step done, both
annotations present), whatever the previous list, the declared host list and the exclude
list are: when the load-balancer address is found and the filtered current list is not
empty, the domains swept for deletion are `difference(previous, declared)` with the
declared host list unfiltered: the pass issues, after calls to the cluster only, one delete
segment (lookup `A`, delete when found, lookup `TXT`, delete when found) per such domain
in order, and afterwards neither a delete nor another `A` lookup; when the load-balancer
lookup fails or every declared host is excluded, the pass returns before the sweep and
issues no provider call. -/
theorem removed_domains_swept {W : Type} (env : Env W) (s t s0 : St W) (ingress : Ingress)
    (svc ns : String) (excl : List String) (src : String) (r : Except Err String)
    (hpass : NormalPass env s ingress svc ns excl t)
    (hlb : getLoadBalancerIP env ns svc t = (r, s0))
    (htyp : nilMapGet ingress.annotations "dns.configuration/type" = some "cloudflare")
    (hsrc : nilMapGet ingress.annotations "dns.configuration/source" = some src) :
    (∀ ip : String, r = .ok ip → excludeFilter (extractDomains ingress) excl ≠ [] →
      (∃ (reads post : List Event) (zone token : String)
          (outs : List ((Bool × String) × (Bool × String))),
          (Reconcile env s).2.trace = s.trace ++ reads
            ++ segments (deleteSegment zone token "A" "TXT")
                (difference (previousDomainsOf ingress) ingress.rules) outs
            ++ post
          ∧ outs.length = (difference (previousDomainsOf ingress) ingress.rules).length
          ∧ (∀ e ∈ reads, e.isProvider = false)
          ∧ (∀ e ∈ post, e.isDelete = false)
          ∧ lookedUp "A" post = [])
      ∧ lookedUp "A" (Reconcile env s).2.trace
          = lookedUp "A" s.trace ++ difference (previousDomainsOf ingress) ingress.rules)
    ∧ ((∃ err, r = .error err) ∨ excludeFilter (extractDomains ingress) excl = [] →
        providerCalls (Reconcile env s).2.trace = providerCalls s.trace) := by
  obtain ⟨reads0, hreads0, hP0⟩ := NormalPass_extends hpass
  constructor
  · intro ip hr hne
    subst hr
    obtain ⟨s2, reads, zone, token, outs, htrace, hlen, hreads, hpost⟩ :=
      normalPhase_cloudflare_tail env ingress svc ns excl t s0 ip src hlb htyp hsrc hne
    obtain ⟨post, hposttr, hpostP⟩ := hpost
    rw [extractDomains_eq] at htrace hlen
    have hfull : (Reconcile env s).2.trace = s.trace ++ (reads0 ++ reads)
        ++ segments (deleteSegment zone token "A" "TXT")
            (difference (previousDomainsOf ingress) ingress.rules) outs
        ++ post := by
      rw [Reconcile_normal hpass, hposttr, htrace, hreads0]
      simp [List.append_assoc]
    have hrd : ∀ e ∈ reads0 ++ reads, e.isProvider = false := by
      intro e he
      rcases List.mem_append.mp he with h | h
      · exact hP0 e h
      · exact hreads e h
    have hpostA : lookedUp "A" post = [] :=
      lookedUp_nil_of_forall "A" post (fun e he => (hpostP e he).2)
    refine ⟨⟨reads0 ++ reads, post, zone, token, outs, hfull, hlen, hrd,
      fun e he => (hpostP e he).1, hpostA⟩, ?_⟩
    have hrdA : lookedUp "A" (reads0 ++ reads) = [] :=
      lookedUp_nil_of_forall "A" (reads0 ++ reads)
        (fun e he => lookedUp_of_cluster "A" e (hrd e he))
    rw [hfull, lookedUp_append, lookedUp_append, lookedUp_append, hrdA, hpostA,
      lookedUp_deleteSegments zone token _ outs hlen]
    simp
  · intro hcase
    rw [Reconcile_normal hpass]
    have h0 : Extends Event.isCluster s t := ⟨reads0, hreads0, hP0⟩
    rcases hcase with ⟨err, hr⟩ | hnil
    · subst hr
      rw [normalPhase_lb_error env ingress svc ns excl t s0 err hlb]
      have h1 := (getLoadBalancerIP_extends env ns svc t).mono isRead_isCluster
      rw [hlb] at h1
      exact (h0.trans h1).providerCalls_eq
    · exact (h0.trans ((normalPhase_empty_extends env ingress svc ns excl t hnil).mono
        isRead_isCluster)).providerCalls_eq

/-- Witness of C3: declared `a.example.com`, previous `a.example.com,b.example.com`, no
exclude list: the domain swept is `b.example.com`. -/
theorem removed_domains_swept_witness :
    lookedUp "A" (runPass clusterEnv
        (clusterWith (optedIn ["a.example.com"] (some "a.example.com,b.example.com")) none)).2.trace
      = [] ++ difference ["a.example.com", "b.example.com"] ["a.example.com"]
    ∧ difference ["a.example.com", "b.example.com"] ["a.example.com"] = ["b.example.com"] :=
  ⟨((removed_domains_swept clusterEnv
      ⟨clusterWith (optedIn ["a.example.com"] (some "a.example.com,b.example.com")) none, []⟩
      _ _ _ "traefik" "kube-system" [] "dns-config" _
      ⟨_, _, _, rfl, rfl, rfl, rfl⟩ rfl rfl rfl).1 "203.0.113.10" rfl (by decide)).2,
   by decide⟩

/-- Counterexample to C3 as stated. First, `c.example.com` is recorded in previous, still
declared and now excluded: `difference(previous, filtered current)` holds it, yet the
pass, which succeeds, sweeps no domain for deletion. Second, the only declared host is
excluded and previous also holds `b.example.com`: `difference(previous, filtered current)`
holds both, yet the pass returns before the sweep and looks nothing up. -/
theorem removed_domains_filtered_counterexample :
    difference (stringsSplit "a.example.com,c.example.com" ',')
        (excludeFilter ["a.example.com", "c.example.com"] ["c.example.com"])
      = ["c.example.com"]
    ∧ (runPass clusterEnv (clusterWith
        (optedIn ["a.example.com", "c.example.com"] (some "a.example.com,c.example.com"))
        (some "- c.example.com\n"))).1 = Outcome.ok
    ∧ lookedUp "A" (runPass clusterEnv (clusterWith
        (optedIn ["a.example.com", "c.example.com"] (some "a.example.com,c.example.com"))
        (some "- c.example.com\n"))).2.trace = []
    ∧ (runPass clusterEnv (clusterWith
        (optedIn ["a.example.com", "c.example.com"] (some "a.example.com,c.example.com"))
        (some "- c.example.com\n"))).2.trace.filter Event.isDelete = []
    ∧ difference (stringsSplit "c.example.com,b.example.com" ',')
        (excludeFilter ["c.example.com"] ["c.example.com"])
      = ["c.example.com", "b.example.com"]
    ∧ providerCalls (runPass clusterEnv (clusterWith
        (optedIn ["c.example.com"] (some "c.example.com,b.example.com"))
        (some "- c.example.com\n"))).2.trace = [] := by
  decide

/-- C4: in a normal-phase pass of type `cloudflare` whose DNS configuration resolves, the
domains synchronized are exactly the filtered current list (the declared hosts not on the
exclude list, in declaration order): after calls that create or update nothing, the pass
issues one sync segment per such domain (lookup `a`, then update of the A record when the
lookup found it and create otherwise; lookup `TXT`, then update of the TXT record when
found and create otherwise), and after them no provider call. -/
theorem current_domains_synchronized {W : Type} (env : Env W) (s t s0 : St W)
    (ingress : Ingress) (svc ns : String) (excl : List String) (ip src : String)
    (hpass : NormalPass env s ingress svc ns excl t)
    (hlb : getLoadBalancerIP env ns svc t = (.ok ip, s0))
    (htyp : nilMapGet ingress.annotations "dns.configuration/type" = some "cloudflare")
    (hsrc : nilMapGet ingress.annotations "dns.configuration/source" = some src)
    (cfg : GoMap)
    (hres : (loadDNSConfiguration env src (addStepState env ingress excl "cloudflare" src s0)).1
      = .ok cfg) :
    excludeFilter (extractDomains ingress) excl
        = ingress.rules.filter (fun h => !containsString excl h)
    ∧ ∃ (pre post : List Event) (zone token : String) (outs : List (Bool × Bool)),
        (Reconcile env s).2.trace = s.trace ++ pre
          ++ segments (syncSegment zone token ip) (excludeFilter (extractDomains ingress) excl) outs
          ++ post
        ∧ outs.length = (excludeFilter (extractDomains ingress) excl).length
        ∧ (∀ e ∈ pre, e.isWrite = false)
        ∧ (∀ e ∈ post, e.isProvider = false) := by
  refine ⟨?_, ?_⟩
  · rw [excludeFilter_eq_filter, extractDomains_eq]
    apply List.filter_congr
    intro x _
    simp [containsString_eq_decide]
  · have h0 := (NormalPass_extends hpass).mono isCluster_noWrite
    rw [Reconcile_normal hpass]
    by_cases hne : excludeFilter (extractDomains ingress) excl = []
    · have hnp : normalPhase env ingress svc ns excl t = (Outcome.ok, s0) := by
        unfold normalPhase
        rw [hlb]
        simp [htyp, hsrc, hne]
      have h1 : Extends (fun e => e.isWrite = false) t s0 := by
        have := (getLoadBalancerIP_extends env ns svc t).mono
          (fun e he => isCluster_noWrite e (isRead_isCluster e he))
        rwa [hlb] at this
      obtain ⟨pre, hpre, hP⟩ := h0.trans h1
      refine ⟨pre, [], "", "", [], ?_, by simp [hne], hP, by simp⟩
      rw [hnp, hne, segments_nil]
      simpa using hpre
    · obtain ⟨s1, cfg1, outsR, hread, hlen, htrace, hcase⟩ :=
        normalPhase_cloudflare env ingress svc ns excl t s0 ip src hlb htyp hsrc hne
      rcases hcase with ⟨err, herr, _⟩ | ⟨cfg', s4, outsA, hcfg', hlenA, hA, hres4⟩
      · rw [hres] at herr
        cases herr
      · have h1 := hread.mono (fun e he => isCluster_noWrite e (isRead_isCluster e he))
        have h2 : Extends (fun e => e.isWrite = false) s1
            (addStepState env ingress excl "cloudflare" src s0) :=
          ⟨_, htrace, segments_forall _ (fun d o => deleteSegment_noWrite _ _ "A" "TXT" d o) _ _⟩
        have h3 := (loadDNSConfiguration_extends env src
          (addStepState env ingress excl "cloudflare" src s0)).mono
          (fun e he => isCluster_noWrite e (isRead_isCluster e he))
        obtain ⟨pre, hpre, hP⟩ := ((h0.trans h1).trans h2).trans h3
        obtain ⟨post, hpost, hQ⟩ := persistPreviousDomains_extends env ingress
          (extractDomains ingress) excl s4
        refine ⟨pre, post, nilMapIndex (some cfg') "zoneid", nilMapIndex (some cfg') "token",
          outsA, ?_, hlenA, hP, hQ⟩
        rw [hres4, hpost, hA, hpre]

/-- Witness of C4: declared `a.example.com`, `b.example.com`, previous `a.example.com`
whose records exist: update for the first host, create for the second. -/
theorem current_domains_synchronized_witness :
    ∃ (pre post : List Event) (zone token : String) (outs : List (Bool × Bool)),
      (runPass clusterEnv
        { clusterWith (optedIn ["a.example.com", "b.example.com"] (some "a.example.com")) none
          with records := [("a.example.com", "A"), ("a.example.com", "TXT")] }).2.trace
        = [] ++ pre
          ++ segments (syncSegment zone token "203.0.113.10")
              (excludeFilter ["a.example.com", "b.example.com"] []) outs
          ++ post
      ∧ outs.length = (excludeFilter ["a.example.com", "b.example.com"] []).length
      ∧ (∀ e ∈ pre, e.isWrite = false)
      ∧ (∀ e ∈ post, e.isProvider = false) :=
  (current_domains_synchronized clusterEnv
    ⟨{ clusterWith (optedIn ["a.example.com", "b.example.com"] (some "a.example.com")) none
        with records := [("a.example.com", "A"), ("a.example.com", "TXT")] }, []⟩
    _ _ _ "traefik" "kube-system" [] "203.0.113.10" "dns-config"
    ⟨_, _, _, rfl, rfl, rfl, rfl⟩ rfl rfl rfl
    (copyMap [("zoneid", "z1"), ("token", "t1")]) rfl).2

/-- C5 (as amended): a pass on an opted-in, non-deleting object whose recorded previous
list equals its filtered current list (what a successful pass records) computes an empty
removed list and issues no provider delete call. It is not free of provider mutations:
with type `cloudflare`, when the load-balancer address is found and the DNS configuration
resolves for the add loop, the mutations of the pass are exactly, for every filtered
current domain in order, an update (lookup found the record) or create call for its A
record and one for its TXT record. -/
theorem matching_previous_no_delete {W : Type} (env : Env W) (s t : St W) (ingress : Ingress)
    (svc ns : String) (excl : List String)
    (hpass : NormalPass env s ingress svc ns excl t)
    (hprev : previousDomainsOf ingress = excludeFilter (extractDomains ingress) excl) :
    difference (previousDomainsOf ingress) (extractDomains ingress) = []
    ∧ (Reconcile env s).2.trace.filter Event.isDelete = s.trace.filter Event.isDelete
    ∧ (∀ (s0 : St W) (ip src : String) (cfg : GoMap),
        getLoadBalancerIP env ns svc t = (.ok ip, s0) →
        nilMapGet ingress.annotations "dns.configuration/type" = some "cloudflare" →
        nilMapGet ingress.annotations "dns.configuration/source" = some src →
        (loadDNSConfiguration env src (addStepState env ingress excl "cloudflare" src s0)).1
          = .ok cfg →
        ∃ (zone token : String) (outs : List (Bool × Bool)),
          outs.length = (excludeFilter (extractDomains ingress) excl).length
          ∧ (Reconcile env s).2.trace.filter Event.isMutation
            = s.trace.filter Event.isMutation
              ++ segments (syncWrites zone token ip)
                  (excludeFilter (extractDomains ingress) excl) outs) := by
  have hrem : difference (previousDomainsOf ingress) (extractDomains ingress) = [] := by
    apply difference_eq_nil_of_subset
    intro x hx
    rw [hprev, excludeFilter_eq_filter] at hx
    exact (List.mem_filter.mp hx).1
  refine ⟨hrem, ?_, ?_⟩
  · apply Extends.filter_eq
    rw [Reconcile_normal hpass]
    have h0 := (NormalPass_extends hpass).mono (fun e he => (isCluster_noDelete e he).1)
    refine h0.trans (normalPhase_extends env ingress svc ns excl t
      (fun e he => (isCluster_noDelete e he).1) ?_ ?_)
    · intro typ src s'
      unfold addStepState
      rw [hrem]
      exact (removalSwitch_nil env typ src _ s').mono
        (fun e he => (isCluster_noDelete e (isRead_isCluster e he)).1)
    · intro typ src ip s'
      exact addSwitch_noDelete env typ src ip _ _ s'
  · intro s0 ip src cfg hlb htyp hsrc hres
    obtain ⟨zone, token, outs, hlen, hmut⟩ :=
      normalPhase_resolved_mutations env ingress svc ns excl t s0 ip src cfg hlb htyp hsrc
        hrem hres
    refine ⟨zone, token, outs, hlen, ?_⟩
    rw [Reconcile_normal hpass, hmut,
      ((NormalPass_extends hpass).mono isCluster_noMutation).filter_eq Event.isMutation]

/-- Witness of C5: the second of two passes in a row for host `a.example.com`. -/
theorem matching_previous_no_delete_witness :
    (runPass clusterEnv
      (runPass clusterEnv (clusterWith (optedIn ["a.example.com"] none) none)).2.world).2.trace.filter
        Event.isDelete = []
    ∧ ∃ (zone token : String) (outs : List (Bool × Bool)),
        outs.length = (excludeFilter ["a.example.com"] []).length
        ∧ (runPass clusterEnv
            (runPass clusterEnv
              (clusterWith (optedIn ["a.example.com"] none) none)).2.world).2.trace.filter
            Event.isMutation
          = [] ++ segments (syncWrites zone token "203.0.113.10")
              (excludeFilter ["a.example.com"] []) outs :=
  ⟨(matching_previous_no_delete clusterEnv
      ⟨(runPass clusterEnv (clusterWith (optedIn ["a.example.com"] none) none)).2.world, []⟩
      _ _ "traefik" "kube-system" [] ⟨_, _, _, rfl, rfl, rfl, rfl⟩ rfl).2.1,
   (matching_previous_no_delete clusterEnv
      ⟨(runPass clusterEnv (clusterWith (optedIn ["a.example.com"] none) none)).2.world, []⟩
      _ _ "traefik" "kube-system" [] ⟨_, _, _, rfl, rfl, rfl, rfl⟩ rfl).2.2
      _ "203.0.113.10" "dns-config" (copyMap [("zoneid", "z1"), ("token", "t1")])
      rfl rfl rfl rfl⟩

/-- Counterexample to C5 as stated: two passes in a row for host `a.example.com` with
nothing changed in between; both succeed and the second one issues two provider update
calls. -/
theorem second_pass_updates_counterexample :
    (runPass clusterEnv (clusterWith (optedIn ["a.example.com"] none) none)).1 = Outcome.ok
    ∧ (runPass clusterEnv
        (runPass clusterEnv (clusterWith (optedIn ["a.example.com"] none) none)).2.world).1
      = Outcome.ok
    ∧ (runPass clusterEnv
        (runPass clusterEnv (clusterWith (optedIn ["a.example.com"] none) none)).2.world).2.trace.filter
          Event.isMutation
      = [Event.updateRecord "z1" "t1" "a.example.com" "A" "203.0.113.10" false,
         Event.updateRecord "z1" "t1" "a.example.com" "TXT" "kube-dns-manager" false] := by
  decide

/-- C6: in the deletion phase with the marker present, whatever the provider lookups and
deletes answer, the pass reads the DNS configuration, sweeps every declared hostname in
order (one delete segment each), then runs the finalizer removal, and its outcome is the
outcome of that removal: success exactly when the removal succeeds. With at least one
retry step the removal starts by re-reading the object. -/
theorem deletion_fail_open {W : Type} (env : Env W) (s t : St W) (ingress : Ingress)
    (hpass : DeletionPass env s ingress t) :
    ∃ (s2 : St W) (reads : List Event) (zone token : String)
      (outs : List ((Bool × String) × (Bool × String))),
      s2.trace = s.trace ++ reads
        ++ segments (deleteSegment zone token "A" "txt") ingress.rules outs
      ∧ outs.length = ingress.rules.length
      ∧ (∀ e ∈ reads, e.isRead)
      ∧ Reconcile env s
        = ((removeFinalizer env ingress s2).1, (removeFinalizer env ingress s2).2.2)
      ∧ ((Reconcile env s).1 = Outcome.ok ↔ (removeFinalizer env ingress s2).1 = Outcome.ok)
      ∧ (0 < env.retrySteps →
          ∃ rest, (Reconcile env s).2.trace = s2.trace ++ Event.getIngress :: rest) := by
  have h0 := DeletionPass_extends hpass
  have h1 := loadDNSConfiguration_extends env
    (nilMapIndex ingress.annotations "dns.configuration/source") t
  obtain ⟨reads, hreads, hR⟩ := h0.trans h1
  obtain ⟨outs, hlen, htr⟩ := deletionSweep_trace env
    (configOrNil (loadDNSConfiguration env
      (nilMapIndex ingress.annotations "dns.configuration/source") t).1)
    (extractDomains ingress)
    (loadDNSConfiguration env (nilMapIndex ingress.annotations "dns.configuration/source") t).2
  rw [extractDomains_eq] at hlen htr
  have hrec : Reconcile env s
      = ((removeFinalizer env ingress (deletionSweep env
            (configOrNil (loadDNSConfiguration env
              (nilMapIndex ingress.annotations "dns.configuration/source") t).1)
            ingress.rules
            (loadDNSConfiguration env
              (nilMapIndex ingress.annotations "dns.configuration/source") t).2)).1,
         (removeFinalizer env ingress (deletionSweep env
            (configOrNil (loadDNSConfiguration env
              (nilMapIndex ingress.annotations "dns.configuration/source") t).1)
            ingress.rules
            (loadDNSConfiguration env
              (nilMapIndex ingress.annotations "dns.configuration/source") t).2)).2.2) := by
    rw [Reconcile_deletion hpass]
    unfold deletionPhase
    rw [extractDomains_eq]
  refine ⟨_, reads, _, _, outs, by rw [htr, hreads], hlen, hR, hrec, by rw [hrec], ?_⟩
  intro hsteps
  rw [hrec]
  exact retryOnConflict_first _ Event.getIngress (removeFinalizerAttempt_first env)
    env.retrySteps hsteps none ingress _

/-- Witness of C6: an object being deleted, marker present, two declared hosts. -/
theorem deletion_fail_open_witness :
    ∃ (s2 : St Cluster) (reads : List Event) (zone token : String)
      (outs : List ((Bool × String) × (Bool × String))),
      s2.trace = [] ++ reads
        ++ segments (deleteSegment zone token "A" "txt") ["a.example.com", "b.example.com"] outs
      ∧ outs.length = ["a.example.com", "b.example.com"].length
      ∧ (∀ e ∈ reads, e.isRead)
      ∧ runPass clusterEnv (clusterWith
          { optedIn ["a.example.com", "b.example.com"] none with
            deletionTimestampIsZero := false, finalizers := [ingressFinalizer] } none)
        = ((removeFinalizer clusterEnv
            { optedIn ["a.example.com", "b.example.com"] none with
              deletionTimestampIsZero := false, finalizers := [ingressFinalizer] } s2).1,
           (removeFinalizer clusterEnv
            { optedIn ["a.example.com", "b.example.com"] none with
              deletionTimestampIsZero := false, finalizers := [ingressFinalizer] } s2).2.2) := by
  obtain ⟨s2, reads, zone, token, outs, h1, h2, h3, h4, _⟩ :=
    deletion_fail_open clusterEnv
      ⟨clusterWith
        { optedIn ["a.example.com", "b.example.com"] none with
          deletionTimestampIsZero := false, finalizers := [ingressFinalizer] } none, []⟩
      _ _ ⟨_, _, rfl, rfl, rfl, rfl⟩
  exact ⟨s2, reads, zone, token, outs, h1, h2, h3, h4⟩

/-- C7, the code at the failing input: the object is being deleted, carries the marker and
declares `a.example.com` twice. The sweep looks the A record of that one hostname up
twice and its TXT record twice; where the deletes do not take effect it also issues the
delete of each record twice. -/
theorem deletion_sweep_repeats_duplicate_host :
    lookedUp "A" (runPass clusterEnv
        { clusterWith
            { optedIn ["a.example.com", "a.example.com"] none with
              deletionTimestampIsZero := false, finalizers := [ingressFinalizer] } none
          with records := [("a.example.com", "A"), ("a.example.com", "TXT")] }).2.trace
      = ["a.example.com", "a.example.com"]
    ∧ lookedUp "txt" (runPass clusterEnv
        { clusterWith
            { optedIn ["a.example.com", "a.example.com"] none with
              deletionTimestampIsZero := false, finalizers := [ingressFinalizer] } none
          with records := [("a.example.com", "A"), ("a.example.com", "TXT")] }).2.trace
      = ["a.example.com", "a.example.com"]
    ∧ (runPass { clusterEnv with
          deleteRecord := fun w _ _ _ => ((false, some (Err.other 500)), w) }
        { clusterWith
            { optedIn ["a.example.com", "a.example.com"] none with
              deletionTimestampIsZero := false, finalizers := [ingressFinalizer] } none
          with records := [("a.example.com", "A"), ("a.example.com", "TXT")] }).2.trace.filter
        Event.isDelete
      = [Event.deleteRecord "z1" "t1" "A:a.example.com",
         Event.deleteRecord "z1" "t1" "TXT:a.example.com",
         Event.deleteRecord "z1" "t1" "A:a.example.com",
         Event.deleteRecord "z1" "t1" "TXT:a.example.com"] := by
  decide

/-- C8: the closure of `addFinalizer`, run on a re-read object whose finalizer list holds
the marker at most once, leaves a list with exactly one marker: the list itself when
`containsString` finds the marker, the list with the marker appended otherwise; the other
finalizers keep their order and the other fields their value; the object is written
exactly when the marker was appended; run again on the object it left, the closure
succeeds with the object unchanged after the re-read alone, without a write. And of the
method `addFinalizer` itself (at least one retry step): a success leaves the marker in the
list; when the re-read object holds the marker it returns success with that object after
the re-read alone; when it does not and the write is accepted, it returns success with the
marker appended, after the re-read and that one write; and called again where the re-read
gives the object it left, it returns success with the object unchanged after the re-read
alone, without a write. -/
theorem addFinalizer_ensure_present {W : Type} (env : Env W) (ingress obj : Ingress)
    (s s1 : St W)
    (hget : callGetIngress env s = (.ok obj, s1))
    (hcount : obj.finalizers.count ingressFinalizer ≤ 1) :
    (addFinalizerAttempt env ingress s).2.1.finalizers.count ingressFinalizer = 1
    ∧ (addFinalizerAttempt env ingress s).2.1
        = { obj with finalizers :=
              if containsString obj.finalizers ingressFinalizer then obj.finalizers
              else obj.finalizers ++ [ingressFinalizer] }
    ∧ (addFinalizerAttempt env ingress s).2.1.finalizers.filter (fun f => f ≠ ingressFinalizer)
        = obj.finalizers.filter (fun f => f ≠ ingressFinalizer)
    ∧ writtenObjects (addFinalizerAttempt env ingress s).2.2.trace
        = writtenObjects s.trace
          ++ (if containsString obj.finalizers ingressFinalizer then []
              else [(addFinalizerAttempt env ingress s).2.1])
    ∧ (∀ (ingress' : Ingress) (s' s1' : St W),
        callGetIngress env s' = (.ok (addFinalizerAttempt env ingress s).2.1, s1') →
        addFinalizerAttempt env ingress' s'
          = (Outcome.ok, (addFinalizerAttempt env ingress s).2.1, s1'))
    ∧ (0 < env.retrySteps → (addFinalizer env ingress s).1 = Outcome.ok →
        ingressFinalizer ∈ (addFinalizer env ingress s).2.1.finalizers)
    ∧ (0 < env.retrySteps → containsString obj.finalizers ingressFinalizer = true →
        addFinalizer env ingress s = (Outcome.ok, obj, s1))
    ∧ (0 < env.retrySteps → containsString obj.finalizers ingressFinalizer = false →
        ∀ s2 : St W,
          callUpdateIngress env
            { obj with finalizers := obj.finalizers ++ [ingressFinalizer] } s1 = (none, s2) →
          addFinalizer env ingress s
            = (Outcome.ok, { obj with finalizers := obj.finalizers ++ [ingressFinalizer] }, s2))
    ∧ (0 < env.retrySteps →
        ∀ (ingress' : Ingress) (s' s1' : St W),
          callGetIngress env s' = (.ok (addFinalizerAttempt env ingress s).2.1, s1') →
          addFinalizer env ingress' s'
            = (Outcome.ok, (addFinalizerAttempt env ingress s).2.1, s1')) := by
  have hretry : (0 < env.retrySteps → (addFinalizer env ingress s).1 = Outcome.ok →
        ingressFinalizer ∈ (addFinalizer env ingress s).2.1.finalizers)
      ∧ (0 < env.retrySteps → containsString obj.finalizers ingressFinalizer = true →
        addFinalizer env ingress s = (Outcome.ok, obj, s1))
      ∧ (0 < env.retrySteps → containsString obj.finalizers ingressFinalizer = false →
        ∀ s2 : St W,
          callUpdateIngress env
            { obj with finalizers := obj.finalizers ++ [ingressFinalizer] } s1 = (none, s2) →
          addFinalizer env ingress s
            = (Outcome.ok, { obj with finalizers := obj.finalizers ++ [ingressFinalizer] }, s2))
      ∧ (0 < env.retrySteps →
        ∀ (ingress' : Ingress) (s' s1' : St W),
          callGetIngress env s' = (.ok (addFinalizerAttempt env ingress s).2.1, s1') →
          addFinalizer env ingress' s'
            = (Outcome.ok, (addFinalizerAttempt env ingress s).2.1, s1')) := by
    refine ⟨fun hsteps hok =>
      retryOnConflict_ok (Q := fun i _ => ingressFinalizer ∈ i.finalizers) _
        (addFinalizerAttempt_ok env) _ _ _ _ (Or.inr hsteps) hok,
      fun hsteps h => addFinalizer_present env ingress obj s s1 hsteps hget h,
      fun hsteps h s2 hupd => addFinalizer_absent env ingress obj s s1 s2 hsteps hget h hupd,
      ?_⟩
    intro hsteps ingress' s' s1' hget'
    apply addFinalizer_present env ingress' _ s' s1' hsteps hget'
    obtain ⟨hyes, hno⟩ := addFinalizerAttempt_eq env ingress obj s s1 hget
    by_cases h : containsString obj.finalizers ingressFinalizer = true
    · rw [hyes h]
      exact h
    · have h' : containsString obj.finalizers ingressFinalizer = false := by
        simpa using h
      rw [(hno h').1]
      simp [containsString_eq_decide]
  obtain ⟨c1, c2, c3, c4, c5⟩ := addFinalizerAttempt_ensure env ingress obj s s1 hget hcount
  exact ⟨c1, c2, c3, c4, c5, hretry⟩

/-- Witness of C8: an object carrying one foreign finalizer; `addFinalizer` succeeds and
leaves the foreign finalizer followed by the marker. -/
theorem addFinalizer_ensure_present_witness :
    (addFinalizer clusterEnv (optedIn [] none)
      ⟨clusterWith { optedIn ["a.example.com"] none with finalizers := ["other/finalizer"] }
        none, []⟩).1 = Outcome.ok
    ∧ (addFinalizer clusterEnv (optedIn [] none)
      ⟨clusterWith { optedIn ["a.example.com"] none with finalizers := ["other/finalizer"] }
        none, []⟩).2.1.finalizers = ["other/finalizer", ingressFinalizer] := by
  obtain ⟨_, _, _, _, _, _, _, habsent, _⟩ :=
    addFinalizer_ensure_present clusterEnv (optedIn [] none)
      { optedIn ["a.example.com"] none with finalizers := ["other/finalizer"] }
      ⟨clusterWith { optedIn ["a.example.com"] none with finalizers := ["other/finalizer"] }
        none, []⟩ _ rfl (by decide)
  have h := habsent (by decide) (by decide) _ rfl
  exact ⟨congrArg (fun r => r.1) h, congrArg (fun r => r.2.1.finalizers) h⟩

/-- C9: the closure of `removeFinalizer`, run on a re-read object, leaves a finalizer list
without the marker, namely the entries different from the marker in their order, and
leaves every other field as read; the object is written exactly when `containsString`
found the marker; when the marker is absent the closure succeeds with the object as read,
after the re-read alone; and a successful `removeFinalizer` (at least one retry step)
leaves no marker in the list. -/
theorem removeFinalizer_ensure_absent {W : Type} (env : Env W) (ingress obj : Ingress)
    (s s1 : St W)
    (hget : callGetIngress env s = (.ok obj, s1)) :
    ingressFinalizer ∉ (removeFinalizerAttempt env ingress s).2.1.finalizers
    ∧ (removeFinalizerAttempt env ingress s).2.1
        = { obj with finalizers := obj.finalizers.filter (fun f => f ≠ ingressFinalizer) }
    ∧ writtenObjects (removeFinalizerAttempt env ingress s).2.2.trace
        = writtenObjects s.trace
          ++ (if containsString obj.finalizers ingressFinalizer
              then [(removeFinalizerAttempt env ingress s).2.1] else [])
    ∧ (containsString obj.finalizers ingressFinalizer = false →
        removeFinalizerAttempt env ingress s = (Outcome.ok, obj, s1)
        ∧ obj.finalizers.filter (fun f => f ≠ ingressFinalizer) = obj.finalizers)
    ∧ (0 < env.retrySteps → (removeFinalizer env ingress s).1 = Outcome.ok →
        ingressFinalizer ∉ (removeFinalizer env ingress s).2.1.finalizers) := by
  have hretry : 0 < env.retrySteps → (removeFinalizer env ingress s).1 = Outcome.ok →
      ingressFinalizer ∉ (removeFinalizer env ingress s).2.1.finalizers := fun hsteps hok =>
    retryOnConflict_ok (Q := fun i _ => ingressFinalizer ∉ i.finalizers) _
      (removeFinalizerAttempt_ok env) _ _ _ _ (Or.inr hsteps) hok
  obtain ⟨hno, hyes⟩ := removeFinalizerAttempt_eq env ingress obj s s1 hget
  have hs1 : writtenObjects s1.trace = writtenObjects s.trace := by
    have := writtenObjects_callGetIngress env s
    rwa [hget] at this
  have hfilter : ∀ l : List String, removeString l ingressFinalizer
      = l.filter (fun f => f ≠ ingressFinalizer) := by
    intro l
    rw [removeString_eq_filter]
  by_cases h : containsString obj.finalizers ingressFinalizer = true
  · obtain ⟨hobj, hst⟩ := hyes h
    rw [hobj, hst, writtenObjects_callUpdateIngress, hs1, hfilter]
    refine ⟨by simp, rfl, by simp [h], ?_, hretry⟩
    intro h'
    rw [h] at h'
    cases h'
  · have h' : containsString obj.finalizers ingressFinalizer = false := by
      simpa using h
    have hnmem : ingressFinalizer ∉ obj.finalizers := by
      simpa [containsString_eq_decide] using h'
    have hself : obj.finalizers.filter (fun f => f ≠ ingressFinalizer) = obj.finalizers := by
      rw [List.filter_eq_self]
      intro a ha
      have : a ≠ ingressFinalizer := fun e => hnmem (e ▸ ha)
      simpa using this
    rw [hno h']
    refine ⟨hnmem, by rw [hself], by simp [h', hs1], fun _ => ⟨rfl, hself⟩, hretry⟩

/-- Witness of C9: an object carrying the marker twice around a foreign finalizer. -/
theorem removeFinalizer_ensure_absent_witness :
    (removeFinalizerAttempt clusterEnv (optedIn [] none)
      ⟨clusterWith { optedIn ["a.example.com"] none with
        finalizers := [ingressFinalizer, "other/finalizer", ingressFinalizer] } none, []⟩).2.1
      = { optedIn ["a.example.com"] none with finalizers := ["other/finalizer"] } :=
  (removeFinalizer_ensure_absent clusterEnv (optedIn [] none)
    { optedIn ["a.example.com"] none with
      finalizers := [ingressFinalizer, "other/finalizer", ingressFinalizer] }
    ⟨clusterWith { optedIn ["a.example.com"] none with
      finalizers := [ingressFinalizer, "other/finalizer", ingressFinalizer] } none, []⟩
    _ rfl).2.1

/-- C10 (as amended): (1) when loading the load-balancer and exclude configuration fails,
the pass returns that error and has issued no provider call; (2) in a normal-phase pass of
type `cloudflare`, when the DNS provider configuration named by the source annotation
cannot be resolved for the add loop, the pass returns that error, having issued no
provider create or update call and no write of the object after the finalizer step. -/
theorem config_failure_aborts {W : Type} (env : Env W) (s : St W) :
    (∀ (ingress : Ingress) (s1 s2 : St W) (err : Err),
      callGetIngress env s = (.ok ingress, s1) →
      loadTraefikConfig env s1 = (.error err, s2) →
      Reconcile env s = (Outcome.error err, s2)
      ∧ providerCalls (Reconcile env s).2.trace = providerCalls s.trace)
    ∧ (∀ (ingress : Ingress) (t s0 : St W) (svc ns : String) (excl : List String)
        (ip src : String) (err : Err),
      NormalPass env s ingress svc ns excl t →
      getLoadBalancerIP env ns svc t = (.ok ip, s0) →
      nilMapGet ingress.annotations "dns.configuration/type" = some "cloudflare" →
      nilMapGet ingress.annotations "dns.configuration/source" = some src →
      excludeFilter (extractDomains ingress) excl ≠ [] →
      (loadDNSConfiguration env src (addStepState env ingress excl "cloudflare" src s0)).1
        = .error err →
      (Reconcile env s).1 = Outcome.error err
      ∧ (Reconcile env s).2.trace.filter Event.isWrite = s.trace.filter Event.isWrite
      ∧ writtenObjects (Reconcile env s).2.trace = writtenObjects t.trace) := by
  constructor
  · intro ingress s1 s2 err hget hcfg
    have hrec : Reconcile env s = (Outcome.error err, s2) := by
      unfold Reconcile
      rw [hget]
      simp only [hcfg]
    refine ⟨hrec, ?_⟩
    rw [hrec]
    have h1 := (callGetIngress_extends env s).mono isRead_isCluster
    have h2 := (loadTraefikConfig_extends env s1).mono isRead_isCluster
    rw [hget] at h1
    rw [hcfg] at h2
    exact (h1.trans h2).providerCalls_eq
  · intro ingress t s0 svc ns excl ip src err hpass hlb htyp hsrc hne hfail
    obtain ⟨hres, hext⟩ :=
      normalPhase_config_error env ingress svc ns excl t s0 ip src err hlb htyp hsrc hne hfail
    rw [Reconcile_normal hpass]
    refine ⟨hres, ?_, ?_⟩
    · apply Extends.filter_eq
      exact ((NormalPass_extends hpass).mono isCluster_noWrite).trans
        (hext.mono (fun e he => he.1))
    · exact (hext.mono (fun e he => he.2)).writtenObjects_eq

/-- Witness of C10: the source `dns-config` exists neither as ConfigMap nor as Secret;
the pass for a non-deleting object returns the error of the resolution. -/
theorem config_failure_aborts_witness :
    (runPass clusterEnv
      { clusterWith (optedIn ["a.example.com"] none) none with configMaps := [] }).1
      = Outcome.error (Err.errorf
          "configuration source dns-config not found as ConfigMap or Secret in namespace kube-system")
    ∧ (runPass clusterEnv
      { clusterWith (optedIn ["a.example.com"] none) none with configMaps := [] }).2.trace.filter
        Event.isWrite = [] :=
  ⟨((config_failure_aborts clusterEnv
      ⟨{ clusterWith (optedIn ["a.example.com"] none) none with configMaps := [] }, []⟩).2
      _ _ _ "traefik" "kube-system" [] "203.0.113.10" "dns-config" _
      ⟨_, _, _, rfl, rfl, rfl, rfl⟩ rfl rfl rfl (by decide) rfl).1,
   ((config_failure_aborts clusterEnv
      ⟨{ clusterWith (optedIn ["a.example.com"] none) none with configMaps := [] }, []⟩).2
      _ _ _ "traefik" "kube-system" [] "203.0.113.10" "dns-config" _
      ⟨_, _, _, rfl, rfl, rfl, rfl⟩ rfl rfl rfl (by decide) rfl).2.1⟩

/-- Counterexample to C10 as stated: the object is being deleted and carries the marker,
and the source `dns-config` exists neither as ConfigMap nor as Secret. The resolution
fails, the sweep still looks the records up with an empty zone id and token, and the pass
returns success. -/
theorem unresolved_config_deletion_counterexample :
    configOrNil (loadDNSConfiguration clusterEnv "dns-config"
        ⟨{ clusterWith
            { optedIn ["a.example.com"] none with
              deletionTimestampIsZero := false, finalizers := [ingressFinalizer] } none
          with configMaps := [] }, []⟩).1 = none
    ∧ (runPass clusterEnv
        { clusterWith
            { optedIn ["a.example.com"] none with
              deletionTimestampIsZero := false, finalizers := [ingressFinalizer] } none
          with configMaps := [] }).1 = Outcome.ok
    ∧ providerCalls (runPass clusterEnv
        { clusterWith
            { optedIn ["a.example.com"] none with
              deletionTimestampIsZero := false, finalizers := [ingressFinalizer] } none
          with configMaps := [] }).2.trace
      = [Event.getRecordId "" "" "a.example.com" "A" false,
         Event.getRecordId "" "" "a.example.com" "txt" false] := by
  decide

/-- C11, the code at the failing input: the endpoint answers the POST, the PUT and the
DELETE with status 403. Each request is sent, and `AddRecord` and `UpdateRecord` return
the empty message with a nil error, `DeleteRecord` returns `false` with a nil error. On a
network where `client.Do` fails, `AddRecord` and `DeleteRecord` return that error, while
`UpdateRecord`, whose lookup fails first, returns a nil error there as well. -/
theorem status_failure_returns_nil_error :
    (AddRecord (statusHttp 403) [] "z1" "t1" "a.example.com" "A" "203.0.113.10" false).1
      = ("", none)
    ∧ (AddRecord (statusHttp 403) [] "z1" "t1" "a.example.com" "A" "203.0.113.10" false).2.map
        HttpRequest.method = ["POST"]
    ∧ (UpdateRecord (statusHttp 403) [] "z1" "t1" "a.example.com" "A" "203.0.113.10" false).1
      = ("", none)
    ∧ (UpdateRecord (statusHttp 403) [] "z1" "t1" "a.example.com" "A" "203.0.113.10" false).2.map
        HttpRequest.method = ["GET", "PUT"]
    ∧ (DeleteRecord (statusHttp 403) [] "z1" "t1" "rec1").1 = (false, none)
    ∧ (DeleteRecord (statusHttp 403) [] "z1" "t1" "rec1").2.map HttpRequest.method
      = ["DELETE"]
    ∧ (AddRecord brokenHttp [] "z1" "t1" "a.example.com" "A" "203.0.113.10" false).1
      = ("", some (Err.other 1))
    ∧ (DeleteRecord brokenHttp [] "z1" "t1" "rec1").1 = (false, some (Err.other 1))
    ∧ (UpdateRecord brokenHttp [] "z1" "t1" "a.example.com" "A" "203.0.113.10" false).1
      = ("", none) := by
  decide

/-- C12 (as amended): when every declared hostname of a non-deleting object is on the
exclude list, the filtered current list is empty and the pass, however its steps end,
issues no provider call and no write of the object after the finalizer step. The
finalizer step (at least one retry step) writes nothing when its re-read finds the marker,
so that the whole pass writes nothing; when the marker is missing and the write is
accepted, the one object written in the whole pass is the re-read object with the marker
appended, its annotations, `dns.configuration/previous-domains` included, as re-read; and
whatever attempt of the finalizer step writes, it writes the annotations as it re-read
them. The pass returns success when the finalizer step and the load-balancer lookup
succeed; a failure of either, both coming before the exclude filter, is what the pass
returns. Here `ingress0` is the object first read, and `o`, `ingress`, `t` are what the
finalizer step returns and leaves. -/
theorem all_excluded_skips {W : Type} (env : Env W) (s s2 t : St W)
    (ingress0 ingress : Ingress) (svc ns : String) (excl : List String) (o : Outcome)
    (hstart : NormalStart env s ingress0 svc ns excl s2)
    (hfin : addFinalizer env ingress0 s2 = (o, ingress, t))
    (hall : ∀ h ∈ ingress.rules, h ∈ excl) :
    excludeFilter (extractDomains ingress) excl = []
    ∧ providerCalls (Reconcile env s).2.trace = providerCalls s.trace
    ∧ writtenObjects (Reconcile env s).2.trace = writtenObjects t.trace
    ∧ (0 < env.retrySteps →
        ∀ (obj : Ingress) (s3 : St W), callGetIngress env s2 = (.ok obj, s3) →
          (containsString obj.finalizers ingressFinalizer = true →
            writtenObjects (Reconcile env s).2.trace = writtenObjects s.trace)
          ∧ (containsString obj.finalizers ingressFinalizer = false →
              ∀ s4 : St W,
                callUpdateIngress env
                  { obj with finalizers := obj.finalizers ++ [ingressFinalizer] } s3
                  = (none, s4) →
                writtenObjects (Reconcile env s).2.trace
                  = writtenObjects s.trace
                    ++ [{ obj with finalizers := obj.finalizers ++ [ingressFinalizer] }]))
    ∧ (∀ (ingress' obj : Ingress) (s' s1' : St W),
        callGetIngress env s' = (.ok obj, s1') →
        ∃ ws : List Ingress,
          writtenObjects (addFinalizerAttempt env ingress' s').2.2.trace
            = writtenObjects s'.trace ++ ws
          ∧ ∀ w ∈ ws, w.annotations = obj.annotations)
    ∧ (∀ (ip : String) (s0 : St W), o = Outcome.ok →
        getLoadBalancerIP env ns svc t = (.ok ip, s0) →
        Reconcile env s = (Outcome.ok, s0))
    ∧ (∀ (err : Err) (s0 : St W), o = Outcome.ok →
        getLoadBalancerIP env ns svc t = (.error err, s0) →
        Reconcile env s = (Outcome.error err, s0))
    ∧ (o ≠ Outcome.ok → Reconcile env s = (o, t)) := by
  have hnil : excludeFilter (extractDomains ingress) excl = [] := by
    rw [excludeFilter_eq_filter, extractDomains_eq, List.filter_eq_nil_iff]
    intro a ha
    simp [hall a ha]
  obtain ⟨hok, hfail⟩ := Reconcile_start_named hstart hfin
  have hread : Extends Event.isRead t (Reconcile env s).2 :=
    Reconcile_start_named_extends hstart hfin
      (normalPhase_empty_extends env ingress svc ns excl t hnil)
  have hwr : writtenObjects (Reconcile env s).2.trace = writtenObjects t.trace :=
    (hread.mono (fun e he => he.2)).writtenObjects_eq
  have hs2 : writtenObjects s2.trace = writtenObjects s.trace :=
    ((NormalStart_extends hstart).mono (fun e he => he.2)).writtenObjects_eq
  have ht : t = (addFinalizer env ingress0 s2).2.2 := by rw [hfin]
  refine ⟨hnil, ?_, hwr, ?_, ?_, ?_, ?_, hfail⟩
  · exact ((NormalStart_finalizer_extends hstart hfin).trans
      (hread.mono isRead_isCluster)).providerCalls_eq
  · intro hsteps obj s3 hget
    obtain ⟨hyes, hno⟩ := addFinalizer_written env ingress0 obj s2 s3 hsteps hget
    constructor
    · intro h
      rw [hwr, ht, hyes h, hs2]
    · intro h s4 hupd
      rw [hwr, ht, hno h s4 hupd, hs2]
  · intro ingress' obj s' s1' hget
    exact addFinalizerAttempt_writes env ingress' obj s' s1' hget
  · intro ip s0 ho hlb
    rw [hok ho]
    exact normalPhase_empty_ok env ingress svc ns excl t s0 ip hlb hnil
  · intro err s0 ho hlb
    rw [hok ho]
    exact normalPhase_lb_error env ingress svc ns excl t s0 err hlb

/-- Witness of C12: the exclude list holds `c.example.com`, the object declares only
`c.example.com` and records `c.example.com` as previous; the one object written is the
object with the marker appended. -/
theorem all_excluded_skips_witness :
    providerCalls (runPass clusterEnv
        (clusterWith (optedIn ["c.example.com"] (some "c.example.com"))
          (some "- c.example.com\n"))).2.trace = providerCalls []
    ∧ (runPass clusterEnv (clusterWith (optedIn ["c.example.com"] (some "c.example.com"))
        (some "- c.example.com\n"))).1 = Outcome.ok
    ∧ writtenObjects (runPass clusterEnv
        (clusterWith (optedIn ["c.example.com"] (some "c.example.com"))
          (some "- c.example.com\n"))).2.trace
      = writtenObjects []
        ++ [{ optedIn ["c.example.com"] (some "c.example.com") with
              finalizers := (optedIn ["c.example.com"] (some "c.example.com")).finalizers
                ++ [ingressFinalizer] }] := by
  obtain ⟨_, hcalls, _, hwritten, _, hsuccess, _, _⟩ :=
    all_excluded_skips clusterEnv
      ⟨clusterWith (optedIn ["c.example.com"] (some "c.example.com"))
        (some "- c.example.com\n"), []⟩
      _ _ _ _ "traefik" "kube-system" ["c.example.com"] _
      ⟨_, rfl, rfl, rfl⟩ rfl (by decide)
  exact ⟨hcalls, congrArg Prod.fst (hsuccess "203.0.113.10" _ rfl rfl),
    (hwritten (by decide) (optedIn ["c.example.com"] (some "c.example.com")) _ rfl).2
      (by decide) _ rfl⟩

/-- Counterexample to C12 as stated: the object is opted in, not being deleted, and its
only declared hostname is excluded, but the Traefik service has no load-balancer address.
The lookup of lines 135-139 fails before the exclude filter and the pass returns that
error, not success. -/
theorem all_excluded_error_counterexample :
    excludeFilter ["c.example.com"] (blockSequence "- c.example.com\n") = []
    ∧ (runPass clusterEnv
        { clusterWith (optedIn ["c.example.com"] (some "c.example.com"))
            (some "- c.example.com\n")
          with loadBalancer := [] }).1
      = Outcome.error (Err.errorf
          "no LoadBalancer IP or hostname found for service kube-system/traefik") := by
  decide

/-- C13 (as amended): for a non-deleting object whose type selector is anything but
`cloudflare`, the pass, however its steps end, issues no provider call. When the
finalizer step and the load-balancer lookup succeed, the source annotation is present and
the filtered current list is not empty, the pass is the retried write of the state
annotation run right after the load-balancer lookup: when it succeeds, its last call is
the write of the object carrying the comma-join of the filtered current list, and when
the re-read returns an object with annotations and the write is accepted, the pass
returns success right after that write. A failure of the finalizer step or of the
load-balancer lookup is what the pass returns, and then the object is not written after
the finalizer step. Here `ingress0` is the object first read, and `o`, `ingress`, `t` are
what the finalizer step returns and leaves. -/
theorem other_type_only_persists {W : Type} (env : Env W) (s s2 t : St W)
    (ingress0 ingress : Ingress) (svc ns : String) (excl : List String) (o : Outcome)
    (typ : String)
    (hstart : NormalStart env s ingress0 svc ns excl s2)
    (hfin : addFinalizer env ingress0 s2 = (o, ingress, t))
    (htyp : nilMapGet ingress.annotations "dns.configuration/type" = some typ)
    (hother : typ ≠ "cloudflare") :
    providerCalls (Reconcile env s).2.trace = providerCalls s.trace
    ∧ (∀ (ip src : String) (s0 : St W), o = Outcome.ok →
        getLoadBalancerIP env ns svc t = (.ok ip, s0) →
        nilMapGet ingress.annotations "dns.configuration/source" = some src →
        excludeFilter (extractDomains ingress) excl ≠ [] →
        Reconcile env s = persistPreviousDomains env ingress (extractDomains ingress) excl s0
        ∧ (0 < env.retrySteps → (Reconcile env s).1 = Outcome.ok →
            ∃ (pre : List Event) (obj : Ingress),
              (Reconcile env s).2.trace = pre ++ [Event.updateIngress obj]
              ∧ nilMapGet obj.annotations previousDomainsKey
                = some (stringsJoin (excludeFilter (extractDomains ingress) excl) ","))
        ∧ (0 < env.retrySteps →
            ∀ (obj : Ingress) (ann : GoMap) (s1' s2' : St W),
              callGetIngress env s0 = (.ok obj, s1') →
              obj.annotations = some ann →
              callUpdateIngress env
                { obj with annotations := some (mapSet ann previousDomainsKey
                    (stringsJoin (excludeFilter (extractDomains ingress) excl) ",")) } s1'
                = (none, s2') →
              Reconcile env s = (Outcome.ok, s2')))
    ∧ (∀ (err : Err) (s0 : St W), o = Outcome.ok →
        getLoadBalancerIP env ns svc t = (.error err, s0) →
        Reconcile env s = (Outcome.error err, s0)
        ∧ writtenObjects (Reconcile env s).2.trace = writtenObjects t.trace)
    ∧ (o ≠ Outcome.ok → Reconcile env s = (o, t)) := by
  obtain ⟨hok, hfail⟩ := Reconcile_start_named hstart hfin
  have hnot : nilMapGet ingress.annotations "dns.configuration/type" ≠ some "cloudflare" := by
    rw [htyp]
    intro e
    exact hother (Option.some.inj e)
  have hdiff : difference (extractDomains ingress) excl
      = excludeFilter (extractDomains ingress) excl := by
    rw [difference_eq_filter, excludeFilter_eq_filter]
  refine ⟨?_, ?_, ?_, hfail⟩
  · exact ((NormalStart_finalizer_extends hstart hfin).trans
      (Reconcile_start_named_extends hstart hfin
        (normalPhase_other_extends env ingress svc ns excl t hnot))).providerCalls_eq
  · intro ip src s0 ho hlb hsrc hne
    have hrec : Reconcile env s
        = persistPreviousDomains env ingress (extractDomains ingress) excl s0 := by
      rw [hok ho]
      exact normalPhase_other env ingress svc ns excl t s0 ip typ src hlb htyp hother hsrc hne
    refine ⟨hrec, ?_, ?_⟩
    · intro hsteps hsucc
      rw [hrec] at hsucc ⊢
      rw [← hdiff]
      exact persistPreviousDomains_ok env ingress _ excl s0 hsteps hsucc
    · intro hsteps obj ann s1' s2' hget hann hupd
      rw [hrec]
      rw [← hdiff] at hupd
      exact persistPreviousDomains_accepted env ingress obj _ excl ann s0 s1' s2' hsteps
        hget hann hupd
  · intro err s0 ho hlb
    have hrec : Reconcile env s = (Outcome.error err, s0) := by
      rw [hok ho]
      exact normalPhase_lb_error env ingress svc ns excl t s0 err hlb
    refine ⟨hrec, ?_⟩
    rw [hrec]
    have h1 := getLoadBalancerIP_extends env ns svc t
    rw [hlb] at h1
    exact (h1.mono (fun e he => he.2)).writtenObjects_eq

/-- Witness of C13: type `bind`, hosts `a.example.com` and `c.example.com`, the second
one excluded, previous `b.example.com`. -/
theorem other_type_only_persists_witness :
    providerCalls (runPass clusterEnv (clusterWith
        { optedIn ["a.example.com", "c.example.com"] none with
          annotations := some [("dns.configuration/type", "bind"),
            ("dns.configuration/source", "dns-config"),
            (previousDomainsKey, "b.example.com")] }
        (some "- c.example.com\n"))).2.trace = providerCalls []
    ∧ ∃ (pre : List Event) (obj : Ingress),
        (runPass clusterEnv (clusterWith
          { optedIn ["a.example.com", "c.example.com"] none with
            annotations := some [("dns.configuration/type", "bind"),
              ("dns.configuration/source", "dns-config"),
              (previousDomainsKey, "b.example.com")] }
          (some "- c.example.com\n"))).2.trace = pre ++ [Event.updateIngress obj]
        ∧ nilMapGet obj.annotations previousDomainsKey = some "a.example.com" := by
  obtain ⟨hcalls, hwrite, _, _⟩ :=
    other_type_only_persists clusterEnv
      ⟨clusterWith
        { optedIn ["a.example.com", "c.example.com"] none with
          annotations := some [("dns.configuration/type", "bind"),
            ("dns.configuration/source", "dns-config"),
            (previousDomainsKey, "b.example.com")] }
        (some "- c.example.com\n"), []⟩
      _ _ _ _ "traefik" "kube-system" ["c.example.com"] _ "bind"
      ⟨_, rfl, rfl, rfl⟩ rfl rfl (by decide)
  exact ⟨hcalls,
    (hwrite "203.0.113.10" "dns-config" _ rfl rfl rfl (by decide)).2.1
      (by decide) (by decide)⟩

/-- Counterexample to C13 as stated: type `bind`, filtered current list `a.example.com`,
previous `b.example.com`, but the Traefik service has no load-balancer address. The pass
returns the error of lines 135-139 and the state annotation of the stored object is still
`b.example.com`: it has not been overwritten. -/
theorem other_type_error_counterexample :
    excludeFilter ["a.example.com", "c.example.com"] (blockSequence "- c.example.com\n")
      = ["a.example.com"]
    ∧ (runPass clusterEnv
        { clusterWith
            { optedIn ["a.example.com", "c.example.com"] none with
              annotations := some [("dns.configuration/type", "bind"),
                ("dns.configuration/source", "dns-config"),
                (previousDomainsKey, "b.example.com")] }
            (some "- c.example.com\n")
          with loadBalancer := [] }).1
      = Outcome.error (Err.errorf
          "no LoadBalancer IP or hostname found for service kube-system/traefik")
    ∧ (runPass clusterEnv
        { clusterWith
            { optedIn ["a.example.com", "c.example.com"] none with
              annotations := some [("dns.configuration/type", "bind"),
                ("dns.configuration/source", "dns-config"),
                (previousDomainsKey, "b.example.com")] }
            (some "- c.example.com\n")
          with loadBalancer := [] }).2.world.object.map
        (fun obj => nilMapGet obj.annotations previousDomainsKey)
      = some (some "b.example.com") := by
  decide

/-- C14: for a non-empty list of hostnames none of which contains a comma, splitting the
comma-join at the commas gives the list back; so an object whose state annotation holds
the comma-join of such a list loads exactly that list as its previous list. -/
theorem previous_domains_round_trip (L : List String) (hne : L ≠ [])
    (hcomma : ∀ h ∈ L, ',' ∉ h.data) :
    stringsSplit (stringsJoin L ",") ',' = L
    ∧ (∀ obj : Ingress,
        nilMapGet obj.annotations previousDomainsKey = some (stringsJoin L ",") →
        previousDomainsOf obj = L) := by
  have h := stringsSplit_stringsJoin L hne hcomma
  refine ⟨h, ?_⟩
  intro obj hobj
  unfold previousDomainsOf
  rw [hobj]
  exact h

/-- Witness of C14: the list `a.example.com`, `b.example.com`. -/
theorem previous_domains_round_trip_witness :
    stringsSplit (stringsJoin ["a.example.com", "b.example.com"] ",") ','
      = ["a.example.com", "b.example.com"] :=
  (previous_domains_round_trip ["a.example.com", "b.example.com"] (by decide) (by decide)).1

end KubeDnsManager

